import Mathlib

set_option maxRecDepth 10000

/-!
Verification of the research-pipeline repository: a shallow embedding of the
archive, the orchestrator trigger, the worker-pool collection step, the deep
report synthesis pipeline and the PDF resolver, together with theorems that
settle the specification claims.  Every definition is translated from the
Python source (files `paper_archive.py`, `research_pipeline.py`,
`api/main.py`); file-system, SQLite and HTTP effects are made explicit as
function arguments and returned values.
-/

namespace ResearchPipeline

/-! ## Generic text helpers -/

theorem length_drop_le {α : Type} (n : Nat) (l : List α) :
    (l.drop n).length ≤ l.length := by
  rw [List.length_drop]
  omega

/-- Whitespace in the sense of the regex class backslash-s (the characters
actually relevant to the sources: space, tab, newline, carriage return,
form feed, vertical tab). -/
def isPyWS (c : Char) : Bool :=
  c = ' ' || c = '\t' || c = '\n' || c = '\r' || c = Char.ofNat 11 || c = Char.ofNat 12

/-- Collapse every maximal run of whitespace to a single space
(the substitution of the whitespace-run regex by a space). -/
def collapseWSAux : List Char → Bool → List Char
  | [], _ => []
  | c :: cs, inRun =>
    if isPyWS c then
      if inRun then collapseWSAux cs true else ' ' :: collapseWSAux cs true
    else c :: collapseWSAux cs false

def collapseWS (s : String) : String :=
  String.mk (collapseWSAux s.data false)

/-- Strip leading whitespace characters from a char list. -/
def dropLeadingWS : List Char → List Char
  | [] => []
  | c :: cs => if isPyWS c then dropLeadingWS cs else c :: cs

/-- Python `str.strip()`: drop whitespace from both ends. -/
def pyStrip (s : String) : String :=
  String.mk (dropLeadingWS (dropLeadingWS s.data.reverse).reverse)

/-- Lowercase ASCII letter test (the regex class `a` to `z`). -/
def isLowerLetter (c : Char) : Bool := 'a' ≤ c && c ≤ 'z'

/-- Maximal runs of lowercase letters in a char list, as strings. -/
def lowerRuns : List Char → List Char → List String
  | [], acc => if acc.isEmpty then [] else [String.mk acc.reverse]
  | c :: cs, acc =>
    if isLowerLetter c then lowerRuns cs (c :: acc)
    else if acc.isEmpty then lowerRuns cs []
    else String.mk acc.reverse :: lowerRuns cs []

/-- Python `str.lower()` restricted to ASCII, which is all the sources use. -/
def pyLower (s : String) : String := String.mk (s.data.map Char.toLower)

/-! ## paper_archive.py -/

/-- The module-level stopword set `_STOPWORDS` of `paper_archive.py`,
transcribed verbatim (duplicated literals kept; membership is what matters). -/
def STOPWORDS : List String :=
  ["a", "an", "the", "and", "or", "but", "in", "on", "at", "to",
   "for", "of", "with", "by", "from", "as", "is", "was", "are",
   "were", "be", "been", "being", "have", "has", "had", "do", "does",
   "did", "will", "would", "could", "should", "may", "might", "that",
   "this", "these", "those", "it", "its", "we", "our", "they", "their",
   "which", "who", "how", "when", "where", "what", "why", "than",
   "then", "both", "also", "such", "more", "than", "not", "all",
   "study", "using", "based", "paper", "method", "results", "show",
   "shown", "shows", "found", "find", "provide", "present", "however",
   "between", "among", "within", "across", "through", "significantly",
   "significant", "highly", "specific", "novel", "proposed", "model",
   "approach", "analysis", "result", "effect", "role", "impact",
   "data", "evaluation", "association", "research", "work", "article",
   "report", "review", "letter", "case", "note", "toward", "towards",
   "here", "there", "where", "large", "small", "high", "low", "new",
   "into", "about", "after", "before", "during", "under", "over",
   "each", "other", "most", "many", "some", "can", "than", "only",
   "used", "uses", "use", "via", "well", "thus", "while", "further",
   "recent", "current", "various", "several", "without", "between"]

/-- `_tokenize(text)`: the maximal lowercase-letter runs of length at least 4
found in `text.lower()` (the regex `[a-z]` repeated 4 or more times), with
stopwords removed, collected into a set. -/
def tokenize (text : String) : Finset String :=
  ((lowerRuns (pyLower text).data []).filter
    (fun w => 4 ≤ w.length && !(STOPWORDS.contains w))).toFinset

/-- `_jaccard(a, b)`: 0 when either bag is empty, else intersection size over
union size, as an exact rational. -/
def jaccard (a b : Finset String) : ℚ :=
  if a = ∅ ∨ b = ∅ then 0
  else ((a ∩ b).card : ℚ) / ((a ∪ b).card : ℚ)

/-- One row of the `papers` table.  `word_bag` is stored in SQLite as the
space-joined sorted token list and read back with `set(wbag.split())`; since
tokens are nonempty letter runs this round-trips, so the row carries the set.
The three report fields are the fields of the parsed `report_json` that
`find_similar` consults for the summary (a failed JSON parse is the empty
strings). -/
structure PaperRow where
  paper_id : String
  title : String
  venue : String
  publication_date : String
  word_bag : Finset String
  ai_feed_summary : String
  main_conclusion : String
  methods_detailed : String
  deriving DecidableEq

/-- One element of the list returned by `find_similar`. -/
structure SimilarHit where
  paper_id : String
  title : String
  venue : String
  date : String
  score : ℚ
  summary : String
  deriving DecidableEq, Repr

/-- The summary string built for one scored row: the first nonempty of
`ai_feed_summary`, `main_conclusion`, `methods_detailed`, whitespace-collapsed,
stripped and truncated to 220 characters. -/
def rowSummary (r : PaperRow) : String :=
  let s := if r.ai_feed_summary ≠ "" then r.ai_feed_summary
           else if r.main_conclusion ≠ "" then r.main_conclusion
           else r.methods_detailed
  if s = "" then "" else (pyStrip (collapseWS s)).take 220

/-- The scoring loop of `find_similar`: keep each row whose Jaccard score
against the query bag reaches `min_score`, in table order. -/
def scoreRows (query : Finset String) (min_score : ℚ) (rows : List PaperRow) :
    List SimilarHit :=
  rows.filterMap (fun r =>
    let score := jaccard query r.word_bag
    if min_score ≤ score then
      some { paper_id := r.paper_id, title := r.title, venue := r.venue,
             date := r.publication_date, score := score, summary := rowSummary r }
    else none)

/-- Stable insertion for a descending sort by score: the new element goes
after every already-placed element of greater or equal score. -/
def insertDescByScore (x : SimilarHit) : List SimilarHit → List SimilarHit
  | [] => [x]
  | y :: ys => if x.score ≤ y.score then y :: insertDescByScore x ys
               else x :: y :: ys

/-- `scored.sort(key=score, reverse=True)`: Python sort is stable, i.e. the
result is sorted descending by score with equal scores in original order;
folding a stable descending insertion realizes exactly that list. -/
def sortDescByScore (l : List SimilarHit) : List SimilarHit :=
  l.foldl (fun acc x => insertDescByScore x acc) []

/-- `find_similar(db_path, title, abstract, exclude_paper_id, limit, min_score)`.
The SQLite state is explicit: `dbExists` is `Path(db_path).exists()` and
`rows` is the `papers` table in insertion order. -/
def find_similar (dbExists : Bool) (rows : List PaperRow)
    (title abstract : String) (exclude_paper_id : String)
    (limit : Nat) (min_score : ℚ) : List SimilarHit :=
  if !dbExists then []
  else
    let query_words := tokenize (title ++ " " ++ abstract)
    if query_words = ∅ then []
    else
      let selected := if exclude_paper_id ≠ "" then
          rows.filter (fun r => r.paper_id ≠ exclude_paper_id)
        else rows
      (sortDescByScore (scoreRows query_words min_score selected)).take limit

/-- Default `limit` of `find_similar`. -/
def DEFAULT_FIND_LIMIT : Nat := 3

/-- Default `min_score` of `find_similar`. -/
def DEFAULT_MIN_SCORE : ℚ := 8 / 100

/-- The candidate rows actually scanned: the SQL query filters out
`exclude_paper_id` only when it is nonempty. -/
def selectedRows (rows : List PaperRow) (exclude_paper_id : String) :
    List PaperRow :=
  if exclude_paper_id ≠ "" then
    rows.filter (fun r => r.paper_id ≠ exclude_paper_id)
  else rows

/-! ### Lemmas about the stable descending sort -/

theorem insertDescByScore_perm (x : SimilarHit) (l : List SimilarHit) :
    List.Perm (insertDescByScore x l) (x :: l) := by
  induction l with
  | nil => simp [insertDescByScore]
  | cons y ys ih =>
    by_cases h : x.score ≤ y.score
    · simpa [insertDescByScore, h] using
        ((ih.cons y).trans (List.Perm.swap x y ys))
    · simp [insertDescByScore, h]

theorem mem_insertDescByScore {z x : SimilarHit} {l : List SimilarHit} :
    z ∈ insertDescByScore x l ↔ z = x ∨ z ∈ l := by
  have h := (insertDescByScore_perm x l).mem_iff (a := z)
  simpa using h

theorem sortDescByScore_perm_aux (l acc : List SimilarHit) :
    List.Perm (l.foldl (fun a x => insertDescByScore x a) acc) (acc ++ l) := by
  induction l generalizing acc with
  | nil => simp
  | cons x xs ih =>
    have h1 := ih (insertDescByScore x acc)
    have h2 := (insertDescByScore_perm x acc).append_right xs
    have h3 : List.Perm ((x :: acc) ++ xs) (acc ++ x :: xs) := by
      simpa using (@List.perm_middle _ x acc xs).symm
    exact h1.trans (h2.trans h3)

theorem sortDescByScore_perm (l : List SimilarHit) :
    List.Perm (sortDescByScore l) l := by
  simpa using sortDescByScore_perm_aux l []

/-- Score-descending order as a pairwise relation. -/
def DescSorted (l : List SimilarHit) : Prop :=
  l.Pairwise (fun a b => b.score ≤ a.score)

theorem insertDescByScore_descSorted {x : SimilarHit} {l : List SimilarHit}
    (h : DescSorted l) : DescSorted (insertDescByScore x l) := by
  induction l with
  | nil => simp [DescSorted, insertDescByScore]
  | cons y ys ih =>
    rcases (List.pairwise_cons.mp h) with ⟨hy, hys⟩
    by_cases hxy : x.score ≤ y.score
    · have htail := ih hys
      have hrw : insertDescByScore x (y :: ys) = y :: insertDescByScore x ys := by
        simp [insertDescByScore, hxy]
      rw [DescSorted, hrw]
      refine List.pairwise_cons.mpr ⟨?_, htail⟩
      intro z hz
      rcases mem_insertDescByScore.mp hz with rfl | hz'
      · exact hxy
      · exact hy z hz'
    · have hrw : insertDescByScore x (y :: ys) = x :: y :: ys := by
        simp [insertDescByScore, hxy]
      push_neg at hxy
      rw [DescSorted, hrw]
      refine List.pairwise_cons.mpr ⟨?_, h⟩
      intro z hz
      rcases List.mem_cons.mp hz with rfl | hz'
      · exact le_of_lt hxy
      · exact le_trans (hy z hz') (le_of_lt hxy)

theorem sortDescByScore_descSorted_aux (l acc : List SimilarHit)
    (hacc : DescSorted acc) :
    DescSorted (l.foldl (fun a x => insertDescByScore x a) acc) := by
  induction l generalizing acc with
  | nil => simpa using hacc
  | cons x xs ih => exact ih _ (insertDescByScore_descSorted hacc)

theorem sortDescByScore_descSorted (l : List SimilarHit) :
    DescSorted (sortDescByScore l) :=
  sortDescByScore_descSorted_aux l [] (by simp [DescSorted])

/-- Stability of the insertion step, phrased through score-level filters: when
the accumulator is already sorted, inserting an element of score `s` appends
it after the existing elements of score `s`, and elements of other scores are
untouched. -/
theorem insertDescByScore_filter_eq {x : SimilarHit} {l : List SimilarHit}
    (hl : DescSorted l) (s : ℚ) :
    (insertDescByScore x l).filter (fun h => h.score = s) =
      if x.score = s then
        l.filter (fun h => h.score = s) ++ [x]
      else l.filter (fun h => h.score = s) := by
  induction l with
  | nil => by_cases hx : x.score = s <;> simp [insertDescByScore, hx]
  | cons y ys ih =>
    rcases (List.pairwise_cons.mp hl) with ⟨hy, hys⟩
    by_cases hxy : x.score ≤ y.score
    · have hih := ih hys
      have hrw : insertDescByScore x (y :: ys) = y :: insertDescByScore x ys := by
        simp [insertDescByScore, hxy]
      rw [hrw, List.filter_cons]
      by_cases hx : x.score = s <;> by_cases hys' : y.score = s <;>
        simp [hih, hx, hys', List.filter_cons]
    · have hrw : insertDescByScore x (y :: ys) = x :: y :: ys := by
        simp [insertDescByScore, hxy]
      push_neg at hxy
      have hnot : ∀ z ∈ y :: ys, z.score < x.score := by
        intro z hz
        rcases List.mem_cons.mp hz with rfl | hz'
        · exact hxy
        · exact lt_of_le_of_lt (hy z hz') hxy
      rw [hrw, List.filter_cons]
      by_cases hx : x.score = s
      · have hzero : (y :: ys).filter (fun h => h.score = s) = [] := by
          apply List.filter_eq_nil_iff.mpr
          intro z hz
          have hzlt := hnot z hz
          simp only [decide_eq_true_eq]
          intro hzs
          rw [hzs, hx] at hzlt
          exact lt_irrefl s hzlt
        simp [hx, hzero]
      · simp [hx]

theorem sortDescByScore_filter_aux (l acc : List SimilarHit)
    (hacc : DescSorted acc) (s : ℚ) :
    (l.foldl (fun a x => insertDescByScore x a) acc).filter (fun h => h.score = s) =
      acc.filter (fun h => h.score = s) ++ l.filter (fun h => h.score = s) := by
  induction l generalizing acc with
  | nil => simp
  | cons x xs ih =>
    have hstep := insertDescByScore_filter_eq (x := x) hacc s
    have hacc' := insertDescByScore_descSorted (x := x) hacc
    by_cases hx : x.score = s
    · simp only [List.foldl_cons, ih _ hacc', hstep, hx, if_pos,
        List.filter_cons, decide_eq_true_eq]
      simp [hx]
    · simp only [List.foldl_cons, ih _ hacc', hstep, hx, if_neg,
        List.filter_cons, decide_eq_true_eq]
      simp [hx]

/-- The stable sort leaves each class of equal-scored hits in its original
(insertion) order. -/
theorem sortDescByScore_filter (l : List SimilarHit) (s : ℚ) :
    (sortDescByScore l).filter (fun h => h.score = s) =
      l.filter (fun h => h.score = s) := by
  simpa using sortDescByScore_filter_aux l [] (by simp [DescSorted]) s

theorem mem_scoreRows {query : Finset String} {min_score : ℚ}
    {rows : List PaperRow} {h : SimilarHit}
    (hmem : h ∈ scoreRows query min_score rows) :
    min_score ≤ h.score ∧ ∃ r ∈ rows, h.paper_id = r.paper_id ∧
      h.score = jaccard query r.word_bag := by
  rcases List.mem_filterMap.mp hmem with ⟨r, hr, hfr⟩
  by_cases hs : min_score ≤ jaccard query r.word_bag
  · simp only [hs, if_pos] at hfr
    cases hfr
    exact ⟨hs, r, hr, rfl, rfl⟩
  · simp [hs] at hfr

theorem find_similar_eq_main (rows : List PaperRow)
    (title abstract excl : String) (limit : Nat) (min_score : ℚ)
    (hq : tokenize (title ++ " " ++ abstract) ≠ ∅) :
    find_similar true rows title abstract excl limit min_score =
      (sortDescByScore (scoreRows (tokenize (title ++ " " ++ abstract))
        min_score (selectedRows rows excl))).take limit := by
  simp [find_similar, selectedRows, hq]

/-- **C3.**  For every archive state and query, `find_similar` returns at most
`limit` results sorted descending by Jaccard score with ties broken by
insertion order (phrased as: within each score class the output is a prefix of
the scan-order list), excludes the given paper identifier, includes only
candidates whose score is at least `min_score`, and returns an empty list when
the database file is missing, the archive is empty, or no candidate clears
`min_score`. -/
theorem find_similar_spec
    (dbExists : Bool) (rows : List PaperRow) (title abstract excl : String)
    (limit : Nat) (min_score : ℚ) :
    (find_similar dbExists rows title abstract excl limit min_score).length ≤ limit
    ∧ (find_similar dbExists rows title abstract excl limit min_score).Pairwise
        (fun a b => b.score ≤ a.score)
    ∧ (∀ s : ℚ,
        (find_similar dbExists rows title abstract excl limit min_score).filter
            (fun h => h.score = s) <+:
          (scoreRows (tokenize (title ++ " " ++ abstract)) min_score
            (selectedRows rows excl)).filter (fun h => h.score = s))
    ∧ (excl ≠ "" →
        ∀ h ∈ find_similar dbExists rows title abstract excl limit min_score,
          h.paper_id ≠ excl)
    ∧ (∀ h ∈ find_similar dbExists rows title abstract excl limit min_score,
        min_score ≤ h.score)
    ∧ (dbExists = false →
        find_similar dbExists rows title abstract excl limit min_score = [])
    ∧ (rows = [] →
        find_similar dbExists rows title abstract excl limit min_score = [])
    ∧ ((∀ r ∈ rows, jaccard (tokenize (title ++ " " ++ abstract)) r.word_bag
          < min_score) →
        find_similar dbExists rows title abstract excl limit min_score = []) := by
  by_cases hdb : dbExists = false
  · subst hdb
    refine ⟨by simp [find_similar], by simp [find_similar], ?_, ?_, ?_, ?_, ?_, ?_⟩ <;>
      simp [find_similar]
  · have hdb' : dbExists = true := by
      cases dbExists
      · exact absurd rfl hdb
      · rfl
    subst hdb'
    by_cases hq : tokenize (title ++ " " ++ abstract) = ∅
    · refine ⟨by simp [find_similar, hq], by simp [find_similar, hq], ?_, ?_, ?_, ?_, ?_, ?_⟩ <;>
        simp [find_similar, hq]
    · rw [find_similar_eq_main rows title abstract excl limit min_score hq]
      set q := tokenize (title ++ " " ++ abstract) with hqdef
      set scored := scoreRows q min_score (selectedRows rows excl) with hscdef
      have hmemOut : ∀ h, h ∈ (sortDescByScore scored).take limit → h ∈ scored := by
        intro h hh
        exact (sortDescByScore_perm scored).mem_iff.mp (List.take_subset _ _ hh)
      refine ⟨List.length_take_le _ _, ?_, ?_, ?_, ?_, ?_, ?_, ?_⟩
      · exact (sortDescByScore_descSorted scored).sublist (List.take_sublist _ _)
      · intro s
        have hpre : (sortDescByScore scored).take limit <+: sortDescByScore scored :=
          List.take_prefix _ _
        have := hpre.filter (fun h => decide (h.score = s))
        rw [sortDescByScore_filter scored s] at this
        exact this
      · intro hexcl h hh
        rcases (mem_scoreRows (hmemOut h hh)).2 with ⟨r, hr, hpid, _⟩
        have : r ∈ rows.filter (fun r => r.paper_id ≠ excl) := by
          simpa [selectedRows, hexcl] using hr
        have hrne := (List.mem_filter.mp this).2
        rw [hpid]
        simpa using hrne
      · intro h hh
        exact (mem_scoreRows (hmemOut h hh)).1
      · intro hfalse
        cases hfalse
      · intro hrows
        subst hrows
        simp [selectedRows, scoreRows, sortDescByScore] at hscdef ⊢
        simp [hscdef]
      · intro hall
        have hnil : scored = [] := by
          rw [hscdef]
          apply List.filterMap_eq_nil_iff.mpr
          intro r hr
          have hrr : r ∈ rows := by
            by_cases hexcl : excl ≠ ""
            · simp only [selectedRows] at hr
              rw [if_pos hexcl] at hr
              exact List.mem_of_mem_filter hr
            · simpa [selectedRows, hexcl] using hr
          have := hall r hrr
          simp [not_le.mpr this]
        rw [hnil]
        simp [sortDescByScore]

/-- Witness for `find_similar_spec`: the spec example archive, instantiated
with a two-paper table and the default limit and minimum score. -/
theorem find_similar_spec_witness :
    ((find_similar true
        [{ paper_id := "doi:A", title := "tA", venue := "", publication_date := "",
           word_bag := tokenize "transformer attention", ai_feed_summary := "",
           main_conclusion := "", methods_detailed := "" },
         { paper_id := "doi:B", title := "tB", venue := "", publication_date := "",
           word_bag := tokenize "transformer vision", ai_feed_summary := "",
           main_conclusion := "", methods_detailed := "" }]
        "transformer attention deep" "" "doi:A" DEFAULT_FIND_LIMIT
        DEFAULT_MIN_SCORE).length ≤ DEFAULT_FIND_LIMIT)
    ∧ ("doi:A" ≠ "" →
        ∀ h ∈ find_similar true
          [{ paper_id := "doi:A", title := "tA", venue := "", publication_date := "",
             word_bag := tokenize "transformer attention", ai_feed_summary := "",
             main_conclusion := "", methods_detailed := "" },
           { paper_id := "doi:B", title := "tB", venue := "", publication_date := "",
             word_bag := tokenize "transformer vision", ai_feed_summary := "",
             main_conclusion := "", methods_detailed := "" }]
          "transformer attention deep" "" "doi:A" DEFAULT_FIND_LIMIT
          DEFAULT_MIN_SCORE, h.paper_id ≠ "doi:A") := by
  have h := find_similar_spec true
    [{ paper_id := "doi:A", title := "tA", venue := "", publication_date := "",
       word_bag := tokenize "transformer attention", ai_feed_summary := "",
       main_conclusion := "", methods_detailed := "" },
     { paper_id := "doi:B", title := "tB", venue := "", publication_date := "",
       word_bag := tokenize "transformer vision", ai_feed_summary := "",
       main_conclusion := "", methods_detailed := "" }]
    "transformer attention deep" "" "doi:A" DEFAULT_FIND_LIMIT DEFAULT_MIN_SCORE
  exact ⟨h.1, h.2.2.2.1⟩

/-- **C10.**  When the query title plus abstract yields no tokens after
case-folding, length filtering and stopword removal, `find_similar` returns
the empty list, even on a non-empty archive. -/
theorem find_similar_empty_query
    (dbExists : Bool) (rows : List PaperRow) (title abstract excl : String)
    (limit : Nat) (min_score : ℚ)
    (hq : tokenize (title ++ " " ++ abstract) = ∅) :
    find_similar dbExists rows title abstract excl limit min_score = [] := by
  cases dbExists <;> simp [find_similar, hq]

/-- Witness for `find_similar_empty_query`: a stopword-only query against a
one-paper archive. -/
theorem find_similar_empty_query_witness :
    find_similar true
      [{ paper_id := "doi:A", title := "tA", venue := "", publication_date := "",
         word_bag := tokenize "transformer attention", ai_feed_summary := "",
         main_conclusion := "", methods_detailed := "" }]
      "The Study" "of a model" "" 3 (8 / 100) = [] :=
  find_similar_empty_query true
    [{ paper_id := "doi:A", title := "tA", venue := "", publication_date := "",
       word_bag := tokenize "transformer attention", ai_feed_summary := "",
       main_conclusion := "", methods_detailed := "" }]
    "The Study" "of a model" "" 3 (8 / 100) (by decide)

/-! ## paper_archive.py: run snapshots (store_run / get_run) -/

/-- One card inside a stored run.  Cards are JSON dicts; the identity field
and the `source_content` field (the cached full text, which `store_run`'s
`_clean` pops before serialization) are explicit, the remaining fields are
carried opaquely as pass-through payload. -/
structure RunCard where
  paper_id : String
  title : String
  source_content : Option String
  payload : String
  deriving DecidableEq

/-- The `_clean` copy inside `store_run`: drop `source_content`. -/
def cleanCard (c : RunCard) : RunCard := { c with source_content := none }

/-- One row of the `runs` table (`papers_json` decomposed into the two card
lists it serializes). -/
structure StoredRun where
  report_cards : List RunCard
  also_notable : List RunCard
  slack_text : String
  total_count : Nat
  stored_at : String
  deriving DecidableEq

/-- The row `store_run` writes: cleaned card lists, the push text, and
`total_count = len(report_cards) + len(also_notable)`. -/
def mkStoredRun (report_cards also_notable : List RunCard)
    (slack_text now : String) : StoredRun :=
  { report_cards := report_cards.map cleanCard,
    also_notable := also_notable.map cleanCard,
    slack_text := slack_text,
    total_count := report_cards.length + also_notable.length,
    stored_at := now }

/-- SQLite `INSERT OR REPLACE` on the `runs` table, keyed by `run_date`;
the table is modeled as an association list in storage order. -/
def insertOrReplaceRun :
    List (String × StoredRun) → String → StoredRun → List (String × StoredRun)
  | [], d, v => [(d, v)]
  | (k, w) :: t, d, v =>
      if k = d then (d, v) :: t else (k, w) :: insertOrReplaceRun t d v

/-- `store_run(db_path, run_date, report_cards, also_notable, slack_text)`;
`now` is the `stored_at` timestamp taken at call time. -/
def store_run (tbl : List (String × StoredRun)) (run_date : String)
    (report_cards also_notable : List RunCard) (slack_text now : String) :
    List (String × StoredRun) :=
  insertOrReplaceRun tbl run_date
    (mkStoredRun report_cards also_notable slack_text now)

/-- `get_run(db_path, run_date)`: point lookup by primary key. -/
def get_run (tbl : List (String × StoredRun)) (run_date : String) :
    Option StoredRun :=
  (tbl.find? (fun e => e.1 = run_date)).map Prod.snd

theorem get_insertOrReplaceRun_self (tbl : List (String × StoredRun))
    (d : String) (v : StoredRun) :
    get_run (insertOrReplaceRun tbl d v) d = some v := by
  induction tbl with
  | nil => simp [insertOrReplaceRun, get_run]
  | cons e t ih =>
    obtain ⟨k, w⟩ := e
    by_cases hk : k = d
    · simp [insertOrReplaceRun, hk, get_run]
    · simpa [insertOrReplaceRun, hk, get_run] using ih

theorem keys_insertOrReplaceRun (tbl : List (String × StoredRun))
    (d : String) (v : StoredRun) :
    (insertOrReplaceRun tbl d v).map Prod.fst = tbl.map Prod.fst ∨
    (insertOrReplaceRun tbl d v).map Prod.fst = tbl.map Prod.fst ++ [d] := by
  induction tbl with
  | nil => right; simp [insertOrReplaceRun]
  | cons e t ih =>
    obtain ⟨k, w⟩ := e
    by_cases hk : k = d
    · left; simp [insertOrReplaceRun, hk]
    · rcases ih with h | h
      · left; simp [insertOrReplaceRun, hk, h]
      · right; simp [insertOrReplaceRun, hk, h]

theorem nodup_insertOrReplaceRun (tbl : List (String × StoredRun))
    (d : String) (v : StoredRun)
    (hn : (tbl.map Prod.fst).Nodup) :
    ((insertOrReplaceRun tbl d v).map Prod.fst).Nodup := by
  induction tbl with
  | nil => simp [insertOrReplaceRun]
  | cons e t ih =>
    obtain ⟨k, w⟩ := e
    simp only [List.map_cons, List.nodup_cons] at hn
    by_cases hk : k = d
    · subst hk
      simpa [insertOrReplaceRun] using hn
    · have htail := ih hn.2
      simp only [insertOrReplaceRun]
      rw [if_neg hk]
      simp only [List.map_cons, List.nodup_cons]
      refine ⟨?_, htail⟩
      intro hmem
      rcases keys_insertOrReplaceRun t d v with h | h
      · rw [h] at hmem
        exact hn.1 hmem
      · rw [h] at hmem
        rcases List.mem_append.mp hmem with h' | h'
        · exact hn.1 h'
        · exact hk (List.mem_singleton.mp h')

/-- **C8.**  Re-storing a run for the same date overwrites the previous
snapshot wholesale: the stored row after the second call carries the second
call's cleaned report cards, cleaned also-notable list, push text and total
count; and the date key stays unique (exactly one stored run per date). -/
theorem store_run_last_write_wins
    (tbl : List (String × StoredRun)) (d : String)
    (rc1 an1 : List RunCard) (tx1 n1 : String)
    (rc2 an2 : List RunCard) (tx2 n2 : String)
    (hn : (tbl.map Prod.fst).Nodup) :
    get_run (store_run (store_run tbl d rc1 an1 tx1 n1) d rc2 an2 tx2 n2) d =
      some { report_cards := rc2.map cleanCard,
             also_notable := an2.map cleanCard,
             slack_text := tx2,
             total_count := rc2.length + an2.length,
             stored_at := n2 }
    ∧ (((store_run (store_run tbl d rc1 an1 tx1 n1) d rc2 an2 tx2 n2).map
          Prod.fst).Nodup)
    ∧ ((store_run (store_run tbl d rc1 an1 tx1 n1) d rc2 an2 tx2 n2).map
          Prod.fst).count d = 1 := by
  have h1 := get_insertOrReplaceRun_self
    (store_run tbl d rc1 an1 tx1 n1) d (mkStoredRun rc2 an2 tx2 n2)
  have hn2 : ((store_run (store_run tbl d rc1 an1 tx1 n1) d rc2 an2 tx2 n2).map
      Prod.fst).Nodup :=
    nodup_insertOrReplaceRun _ d _ (nodup_insertOrReplaceRun _ d _ hn)
  have hfind : d ∈ (store_run (store_run tbl d rc1 an1 tx1 n1) d rc2 an2
      tx2 n2).map Prod.fst := by
    have h2 := h1
    simp only [get_run] at h2
    rcases Option.map_eq_some'.mp h2 with ⟨e, he, _⟩
    have hkey : e.1 = d := by simpa using List.find?_some he
    have hmem := List.mem_of_find?_eq_some he
    exact List.mem_map.mpr ⟨e, hmem, hkey⟩
  refine ⟨h1, hn2, ?_⟩
  exact List.count_eq_one_of_mem hn2 hfind

/-- Witness for `store_run_last_write_wins`: a concrete double store on an
initially empty table. -/
theorem store_run_last_write_wins_witness :
    get_run (store_run (store_run []
      "2025-06-01" [⟨"doi:A", "tA", some "big text", "p"⟩] [] "first" "t1")
      "2025-06-01" [] [⟨"doi:B", "tB", none, "q"⟩] "second" "t2") "2025-06-01" =
      some { report_cards := ([] : List RunCard).map cleanCard,
             also_notable := [(⟨"doi:B", "tB", none, "q"⟩ : RunCard)].map cleanCard,
             slack_text := "second",
             total_count := ([] : List RunCard).length +
               [(⟨"doi:B", "tB", none, "q"⟩ : RunCard)].length,
             stored_at := "t2" } :=
  (store_run_last_write_wins [] "2025-06-01"
    [⟨"doi:A", "tA", some "big text", "p"⟩] [] "first" "t1"
    [] [⟨"doi:B", "tB", none, "q"⟩] "second" "t2" (by simp)).1

/-! ## api/main.py: promotion of a paper into a stored run (summarize_paper) -/

/-- The read-modify-write at the end of `summarize_paper`: remove the paper
from `also_notable`, append the freshly summarized card to `report_cards`
unless a card with that `paper_id` is already there; every other field of the
run row is left untouched. -/
def promoteRun (card : RunCard) (run : StoredRun) : StoredRun :=
  let pid := card.paper_id
  let an := run.also_notable.filter (fun c => c.paper_id ≠ pid)
  let rc := if run.report_cards.any (fun c => c.paper_id = pid)
            then run.report_cards else run.report_cards ++ [card]
  { run with report_cards := rc, also_notable := an }

/-- The digest regeneration that follows the promotion: `_write_digest_md` is
called with the updated lists, so the digest counts are those of the updated
run. -/
def promoteAndDigest (card : RunCard) (run : StoredRun) :
    StoredRun × (Nat × Nat) :=
  let r := promoteRun card run
  (r, (r.report_cards.length, r.also_notable.length))

/-- **C9.**  Promotion is idempotent: promoting the same paper a second time
(with any regenerated card carrying the same `paper_id`) leaves the stored
run unchanged, and the digest written after a promotion reflects the updated
lists of the run. -/
theorem promoteRun_idempotent (card card2 : RunCard) (run : StoredRun)
    (hpid : card2.paper_id = card.paper_id) :
    promoteRun card2 (promoteRun card run) = promoteRun card run
    ∧ (promoteAndDigest card run).2 =
        ((promoteRun card run).report_cards.length,
         (promoteRun card run).also_notable.length) := by
  constructor
  · simp only [promoteRun, hpid]
    by_cases hc : (run.report_cards.any (fun c => c.paper_id = card.paper_id))
        = true
    · simp [hc, List.filter_filter]
    · simp [hc, List.filter_filter]
  · rfl

/-- Witness for `promoteRun_idempotent`: promote the same paper twice into a
concrete one-card run. -/
theorem promoteRun_idempotent_witness :
    promoteRun ⟨"doi:B", "tB second", none, "q2"⟩
        (promoteRun ⟨"doi:B", "tB", none, "q"⟩
          { report_cards := [⟨"doi:A", "tA", none, "p"⟩],
            also_notable := [⟨"doi:B", "tB", none, "q"⟩],
            slack_text := "s", total_count := 2, stored_at := "t" }) =
      promoteRun ⟨"doi:B", "tB", none, "q"⟩
        { report_cards := [⟨"doi:A", "tA", none, "p"⟩],
          also_notable := [⟨"doi:B", "tB", none, "q"⟩],
          slack_text := "s", total_count := 2, stored_at := "t" } :=
  (promoteRun_idempotent ⟨"doi:B", "tB", none, "q"⟩
    ⟨"doi:B", "tB second", none, "q2"⟩
    { report_cards := [⟨"doi:A", "tA", none, "p"⟩],
      also_notable := [⟨"doi:B", "tB", none, "q"⟩],
      slack_text := "s", total_count := 2, stored_at := "t" } rfl).1

/-! ## api/main.py: worker pool collection inside _run -/

/-- A candidate card as selected for deep reading (the fields `_process`
reads). -/
structure PipeCard where
  paper_id : String
  title : String
  source_abstract : String
  venue : String
  date : String
  deriving DecidableEq

/-- A processed card, i.e. the dict appended to `report_cards`:
`{**c, "report": ..., "similar": ..., "link": ...}`.  The report dict is
carried as a key-value list; the empty list is the empty report `{}`. -/
structure ProcessedCard where
  card : PipeCard
  report : List (String × String)
  similar : List SimilarHit
  link : String
  deriving DecidableEq

/-- The outcome of one `_process(c)` worker as observed by the collection
loop.   The external effects are a parameter: `gen c = some (report, similar)`
when the call returns, `gen c = none` when it raises, in which case the
`except` branch keeps the original card with `report = {}` and
`similar = []`.  Both branches set `link = _best_link(c)`. -/
def processOutcome (gen : PipeCard → Option (List (String × String) × List SimilarHit))
    (bestLink : PipeCard → String) (c : PipeCard) : ProcessedCard :=
  match gen c with
  | some (r, s) => { card := c, report := r, similar := s, link := bestLink c }
  | none => { card := c, report := [], similar := [], link := bestLink c }

/-- `order = \x7bc.get("paper_id"): i for i, c in enumerate(selected)\x7d`,
built left to right (a later duplicate key overwrites an earlier one). -/
def buildOrderFrom : Nat → List PipeCard → List (String × Nat)
  | _, [] => []
  | i, c :: cs => (c.paper_id, i) :: buildOrderFrom (i + 1) cs

def buildOrder (selected : List PipeCard) : List (String × Nat) :=
  buildOrderFrom 0 selected

/-- Python dict lookup on the comprehension-built dict: the last binding of a
key wins. -/
def dictGet (entries : List (String × Nat)) (k : String) : Option Nat :=
  (entries.reverse.find? (fun e => e.1 = k)).map Prod.snd

/-- The sort key `order.get(x.get("paper_id", ""), 999)`. -/
def orderKey (selected : List PipeCard) (x : ProcessedCard) : Nat :=
  (dictGet (buildOrder selected) x.card.paper_id).getD 999

/-- Stable insertion for an ascending sort by key: the new element goes after
every already-placed element of smaller or equal key. -/
def insertAscByKey (key : ProcessedCard → Nat) (x : ProcessedCard) :
    List ProcessedCard → List ProcessedCard
  | [] => [x]
  | y :: ys => if key y ≤ key x then y :: insertAscByKey key x ys
               else x :: y :: ys

/-- `report_cards.sort(key=...)`: Python sort is stable ascending; folding a
stable ascending insertion realizes exactly that list. -/
def sortAscByKey (key : ProcessedCard → Nat) (l : List ProcessedCard) :
    List ProcessedCard :=
  l.foldl (fun acc x => insertAscByKey key x acc) []

/-- The collection step of `_run`: workers finish in `completion` order (an
arbitrary permutation of `selected`), each future appends its processed card,
and the list is then re-sorted by the pre-dispatch selection index. -/
def collectReportCards
    (gen : PipeCard → Option (List (String × String) × List SimilarHit))
    (bestLink : PipeCard → String)
    (selected completion : List PipeCard) : List ProcessedCard :=
  sortAscByKey (orderKey selected)
    (completion.map (processOutcome gen bestLink))

theorem insertAscByKey_perm (key : ProcessedCard → Nat) (x : ProcessedCard)
    (l : List ProcessedCard) :
    List.Perm (insertAscByKey key x l) (x :: l) := by
  induction l with
  | nil => simp [insertAscByKey]
  | cons y ys ih =>
    by_cases h : key y ≤ key x
    · simpa [insertAscByKey, h] using
        ((ih.cons y).trans (List.Perm.swap x y ys))
    · simp [insertAscByKey, h]

theorem sortAscByKey_perm_aux (key : ProcessedCard → Nat)
    (l acc : List ProcessedCard) :
    List.Perm (l.foldl (fun a x => insertAscByKey key x a) acc) (acc ++ l) := by
  induction l generalizing acc with
  | nil => simp
  | cons x xs ih =>
    have h1 := ih (insertAscByKey key x acc)
    have h2 := (insertAscByKey_perm key x acc).append_right xs
    have h3 : List.Perm ((x :: acc) ++ xs) (acc ++ x :: xs) := by
      simpa using (@List.perm_middle _ x acc xs).symm
    exact h1.trans (h2.trans h3)

theorem sortAscByKey_perm (key : ProcessedCard → Nat) (l : List ProcessedCard) :
    List.Perm (sortAscByKey key l) l := by
  simpa using sortAscByKey_perm_aux key l []

theorem insertAscByKey_sorted {key : ProcessedCard → Nat} {x : ProcessedCard}
    {l : List ProcessedCard}
    (h : l.Pairwise (fun a b => key a ≤ key b)) :
    (insertAscByKey key x l).Pairwise (fun a b => key a ≤ key b) := by
  induction l with
  | nil => simp [insertAscByKey]
  | cons y ys ih =>
    rcases (List.pairwise_cons.mp h) with ⟨hy, hys⟩
    by_cases hxy : key y ≤ key x
    · have htail := ih hys
      have hrw : insertAscByKey key x (y :: ys) = y :: insertAscByKey key x ys := by
        simp [insertAscByKey, hxy]
      rw [hrw]
      refine List.pairwise_cons.mpr ⟨?_, htail⟩
      intro z hz
      have hmem := (insertAscByKey_perm key x ys).mem_iff.mp hz
      rcases List.mem_cons.mp hmem with rfl | hz'
      · exact hxy
      · exact hy z hz'
    · have hrw : insertAscByKey key x (y :: ys) = x :: y :: ys := by
        simp [insertAscByKey, hxy]
      push_neg at hxy
      rw [hrw]
      refine List.pairwise_cons.mpr ⟨?_, h⟩
      intro z hz
      rcases List.mem_cons.mp hz with rfl | hz'
      · exact le_of_lt hxy
      · exact le_trans (le_of_lt hxy) (hy z hz')

theorem sortAscByKey_sorted_aux (key : ProcessedCard → Nat)
    (l acc : List ProcessedCard)
    (hacc : acc.Pairwise (fun a b => key a ≤ key b)) :
    (l.foldl (fun a x => insertAscByKey key x a) acc).Pairwise
      (fun a b => key a ≤ key b) := by
  induction l generalizing acc with
  | nil => simpa using hacc
  | cons x xs ih => exact ih _ (insertAscByKey_sorted hacc)

theorem sortAscByKey_sorted (key : ProcessedCard → Nat)
    (l : List ProcessedCard) :
    (sortAscByKey key l).Pairwise (fun a b => key a ≤ key b) :=
  sortAscByKey_sorted_aux key l [] (by simp)

theorem mem_buildOrderFrom_key {e : String × Nat} :
    ∀ (n : Nat) (cs : List PipeCard), e ∈ buildOrderFrom n cs →
      e.1 ∈ cs.map PipeCard.paper_id := by
  intro n cs
  induction cs generalizing n with
  | nil => intro h; cases h
  | cons d ds ihd =>
    intro h
    rcases List.mem_cons.mp h with rfl | hmem
    · simp
    · simpa using Or.inr (ihd _ hmem)

theorem dictGet_buildOrderFrom (selected : List PipeCard) (n : Nat)
    (hnodup : (selected.map PipeCard.paper_id).Nodup)
    (i : Nat) (hi : i < selected.length) :
    dictGet (buildOrderFrom n selected) (selected.get ⟨i, hi⟩).paper_id =
      some (n + i) := by
  induction selected generalizing n i with
  | nil => cases hi
  | cons c cs ih =>
    simp only [List.map_cons, List.nodup_cons] at hnodup
    cases i with
    | zero =>
      have hnotin : (buildOrderFrom (n + 1) cs).reverse.find?
          (fun e => e.1 = c.paper_id) = none := by
        apply List.find?_eq_none.mpr
        intro e he
        have he' : e ∈ buildOrderFrom (n + 1) cs := List.mem_reverse.mp he
        have hkey : e.1 ∈ cs.map PipeCard.paper_id :=
          mem_buildOrderFrom_key (n + 1) cs he'
        simp only [decide_eq_true_eq]
        intro hc
        rw [hc] at hkey
        exact hnodup.1 hkey
      simp only [buildOrderFrom, dictGet, List.reverse_cons, List.get]
      rw [List.find?_append, hnotin]
      simp
    | succ j =>
      have hj : j < cs.length := Nat.lt_of_succ_lt_succ hi
      have hrec := ih (n + 1) hnodup.2 j hj
      simp only [dictGet] at hrec
      rcases hfind : (buildOrderFrom (n + 1) cs).reverse.find?
          (fun e => e.1 = (cs.get ⟨j, hj⟩).paper_id) with _ | e
      · rw [hfind] at hrec
        simp at hrec
      · rw [hfind] at hrec
        simp at hrec
        simp only [buildOrderFrom, dictGet, List.reverse_cons, List.get]
        rw [List.find?_append, hfind]
        have harith : (n : Nat) + 1 + j = n + (j + 1) := by omega
        simp [hrec, harith]

theorem orderKey_at (selected : List PipeCard)
    (gen : PipeCard → Option (List (String × String) × List SimilarHit))
    (bestLink : PipeCard → String)
    (hnodup : (selected.map PipeCard.paper_id).Nodup)
    (i : Nat) (hi : i < selected.length) :
    orderKey selected (processOutcome gen bestLink (selected.get ⟨i, hi⟩)) = i := by
  have hpid : (processOutcome gen bestLink (selected.get ⟨i, hi⟩)).card =
      selected.get ⟨i, hi⟩ := by
    simp only [processOutcome]
    rcases gen (selected.get ⟨i, hi⟩) with _ | ⟨r, s⟩ <;> simp
  simp only [orderKey, hpid, buildOrder]
  rw [dictGet_buildOrderFrom selected 0 hnodup i hi]
  simp

/-- The pre-dispatch target list is strictly sorted by the selection index. -/
theorem target_strict_sorted (selected : List PipeCard)
    (gen : PipeCard → Option (List (String × String) × List SimilarHit))
    (bestLink : PipeCard → String)
    (hnodup : (selected.map PipeCard.paper_id).Nodup) :
    (selected.map (processOutcome gen bestLink)).Pairwise
      (fun a b => orderKey selected a < orderKey selected b) := by
  rw [List.pairwise_iff_get]
  intro i j hij
  have hi : (i : Nat) < selected.length := by
    simpa using i.isLt
  have hj : (j : Nat) < selected.length := by
    simpa using j.isLt
  have hgi : (selected.map (processOutcome gen bestLink)).get i =
      processOutcome gen bestLink (selected.get ⟨i, hi⟩) := by
    simp [List.get_map]
  have hgj : (selected.map (processOutcome gen bestLink)).get j =
      processOutcome gen bestLink (selected.get ⟨j, hj⟩) := by
    simp [List.get_map]
  rw [hgi, hgj, orderKey_at selected gen bestLink hnodup i hi,
    orderKey_at selected gen bestLink hnodup j hj]
  exact hij

/-- **C2.**  Whatever order the workers complete in (any permutation of the
selected list, in particular the reversed one), the collected and re-sorted
`report_cards` list equals the pre-dispatch selection order, each card
processed in place. -/
theorem run_order_preservation
    (gen : PipeCard → Option (List (String × String) × List SimilarHit))
    (bestLink : PipeCard → String)
    (selected completion : List PipeCard)
    (hnodup : (selected.map PipeCard.paper_id).Nodup)
    (hperm : List.Perm completion selected) :
    collectReportCards gen bestLink selected completion =
      selected.map (processOutcome gen bestLink) := by
  have hpermOut : List.Perm (collectReportCards gen bestLink selected completion)
      (selected.map (processOutcome gen bestLink)) :=
    (sortAscByKey_perm _ _).trans (hperm.map _)
  have hsortedOut := sortAscByKey_sorted (orderKey selected)
    (completion.map (processOutcome gen bestLink))
  have htarget := target_strict_sorted selected gen bestLink hnodup
  have hkeysNodup : ((collectReportCards gen bestLink selected completion).map
      (orderKey selected)).Nodup := by
    have hperm2 := hpermOut.map (orderKey selected)
    refine hperm2.nodup_iff.mpr ?_
    rw [List.nodup_iff_sublist]
    intro a hsub
    have hpw := (List.pairwise_map.mpr
      (htarget.imp (fun hab => ne_of_lt hab)))
    have := hpw.sublist hsub
    simp at this
  have hstrict : (collectReportCards gen bestLink selected completion).Pairwise
      (fun a b => orderKey selected a < orderKey selected b) := by
    have hle : (collectReportCards gen bestLink selected completion).Pairwise
        (fun a b => orderKey selected a ≤ orderKey selected b) := hsortedOut
    have hne : (collectReportCards gen bestLink selected completion).Pairwise
        (fun a b => orderKey selected a ≠ orderKey selected b) :=
      List.pairwise_map.mp hkeysNodup
    exact (hle.and hne).imp (fun hab => lt_of_le_of_ne hab.1 hab.2)
  haveI : IsAntisymm ProcessedCard
      (fun a b => orderKey selected a < orderKey selected b) :=
    ⟨fun a b h1 h2 => absurd h2 (not_lt.mpr (le_of_lt h1))⟩
  exact List.eq_of_perm_of_sorted hpermOut hstrict htarget

/-- Witness for `run_order_preservation`: three distinct papers whose workers
finish in exactly reversed order. -/
theorem run_order_preservation_witness :
    collectReportCards
      (fun c => if c.paper_id = "doi:B" then none else some ([("summary", "ok")], []))
      (fun c => c.paper_id)
      [⟨"doi:A", "tA", "aA", "", ""⟩, ⟨"doi:B", "tB", "aB", "", ""⟩,
       ⟨"doi:C", "tC", "aC", "", ""⟩]
      [⟨"doi:C", "tC", "aC", "", ""⟩, ⟨"doi:B", "tB", "aB", "", ""⟩,
       ⟨"doi:A", "tA", "aA", "", ""⟩] =
      [⟨"doi:A", "tA", "aA", "", ""⟩, ⟨"doi:B", "tB", "aB", "", ""⟩,
       ⟨"doi:C", "tC", "aC", "", ""⟩].map
        (processOutcome
          (fun c => if c.paper_id = "doi:B" then none else some ([("summary", "ok")], []))
          (fun c => c.paper_id)) :=
  run_order_preservation
    (fun c => if c.paper_id = "doi:B" then none else some ([("summary", "ok")], []))
    (fun c => c.paper_id)
    [⟨"doi:A", "tA", "aA", "", ""⟩, ⟨"doi:B", "tB", "aB", "", ""⟩,
     ⟨"doi:C", "tC", "aC", "", ""⟩]
    [⟨"doi:C", "tC", "aC", "", ""⟩, ⟨"doi:B", "tB", "aB", "", ""⟩,
     ⟨"doi:A", "tA", "aA", "", ""⟩]
    (by decide) (by decide)

/-- **C5.**  A worker whose report generation raises does not abort the batch:
its card stays in the run with an empty report and empty similar list, every
successfully processed card is present too, and the collected list has one
entry per selected paper. -/
theorem run_partial_failure_isolated
    (gen : PipeCard → Option (List (String × String) × List SimilarHit))
    (bestLink : PipeCard → String)
    (selected completion : List PipeCard)
    (hperm : List.Perm completion selected) :
    (collectReportCards gen bestLink selected completion).length =
        selected.length
    ∧ (∀ c ∈ selected, gen c = none →
        ({ card := c, report := [], similar := [], link := bestLink c }
          : ProcessedCard) ∈ collectReportCards gen bestLink selected completion)
    ∧ (∀ c ∈ selected, ∀ r s, gen c = some (r, s) →
        ({ card := c, report := r, similar := s, link := bestLink c }
          : ProcessedCard) ∈ collectReportCards gen bestLink selected completion) := by
  have hpermOut : List.Perm (collectReportCards gen bestLink selected completion)
      (selected.map (processOutcome gen bestLink)) :=
    (sortAscByKey_perm _ _).trans (hperm.map _)
  refine ⟨?_, ?_, ?_⟩
  · rw [hpermOut.length_eq]
    simp
  · intro c hc hgen
    apply hpermOut.mem_iff.mpr
    apply List.mem_map.mpr
    refine ⟨c, hc, ?_⟩
    simp [processOutcome, hgen]
  · intro c hc r s hgen
    apply hpermOut.mem_iff.mpr
    apply List.mem_map.mpr
    refine ⟨c, hc, ?_⟩
    simp [processOutcome, hgen]

/-- Witness for `run_partial_failure_isolated`: the middle worker of three
raises; its card survives with the empty report. -/
theorem run_partial_failure_isolated_witness :
    ({ card := ⟨"doi:B", "tB", "aB", "", ""⟩, report := [], similar := [],
       link := "doi:B" } : ProcessedCard) ∈
      collectReportCards
        (fun c => if c.paper_id = "doi:B" then none else some ([("summary", "ok")], []))
        (fun c => c.paper_id)
        [⟨"doi:A", "tA", "aA", "", ""⟩, ⟨"doi:B", "tB", "aB", "", ""⟩,
         ⟨"doi:C", "tC", "aC", "", ""⟩]
        [⟨"doi:C", "tC", "aC", "", ""⟩, ⟨"doi:B", "tB", "aB", "", ""⟩,
         ⟨"doi:A", "tA", "aA", "", ""⟩] :=
  (run_partial_failure_isolated
    (fun c => if c.paper_id = "doi:B" then none else some ([("summary", "ok")], []))
    (fun c => c.paper_id)
    [⟨"doi:A", "tA", "aA", "", ""⟩, ⟨"doi:B", "tB", "aB", "", ""⟩,
     ⟨"doi:C", "tC", "aC", "", ""⟩]
    [⟨"doi:C", "tC", "aC", "", ""⟩, ⟨"doi:B", "tB", "aB", "", ""⟩,
     ⟨"doi:A", "tA", "aA", "", ""⟩]
    (by decide)).2.1 ⟨"doi:B", "tB", "aB", "", ""⟩ (by decide) (by decide)

/-! ## api/main.py: LaTeX delimiter normalization (_normalize_math_delimiters) -/

/-- Earliest start index of `needle` inside `hay`, scanning left to right
(`str.find` / `bytes.find` / leftmost regex match); `none` when absent. -/
def findSubAux {α : Type} [DecidableEq α] (needle : List α) :
    List α → Nat → Option Nat
  | [], k => if needle.isEmpty then some k else none
  | c :: cs, k =>
    if needle.isPrefixOf (c :: cs) then some k
    else findSubAux needle cs (k + 1)

def findSub {α : Type} [DecidableEq α] (needle hay : List α) : Option Nat :=
  findSubAux needle hay 0

/-- Substring membership (Python `sub in s`). -/
def containsSub (needle s : List Char) : Bool :=
  (findSub needle s).isSome

/-- One pass of the substitution regex: backslash-open, a non-greedy group of
at least one character (DOTALL), backslash-close, replaced by the group
wrapped in `wrap` on both sides.  Scanning is left to right; after a match
the scan resumes past the match; at a position where the opener matches but
no closer follows at distance at least one, there is no match at that
position and the scan moves one character.  The non-greedy group ends at the
earliest closer at distance at least one (the group may itself contain a
closer-lookalike at its very first position, exactly as backtracking does). -/
def normDelimPassF (openCh closeCh : Char) (wrap : List Char) :
    Nat → List Char → List Char
  | 0, l => l
  | _ + 1, [] => []
  | _ + 1, [c] => [c]
  | fuel + 1, c :: d :: rest =>
    if c = '\\' ∧ d = openCh then
      match findSub ['\\', closeCh] (rest.drop 1) with
      | some k =>
          wrap ++ rest.take (k + 1) ++ wrap ++
            normDelimPassF openCh closeCh wrap fuel (rest.drop (k + 3))
      | none => c :: normDelimPassF openCh closeCh wrap fuel (d :: rest)
    else c :: normDelimPassF openCh closeCh wrap fuel (d :: rest)

/-- The fuel argument only drives structural recursion: the scanned list
shrinks by at least one character per step, so the list length is always
enough fuel and the fuel-exhausted fallback is never reached. -/
def normDelimPass (openCh closeCh : Char) (wrap : List Char)
    (l : List Char) : List Char :=
  normDelimPassF openCh closeCh wrap l.length l

/-- `_normalize_math_delimiters(text)`: first rewrite every
backslash-paren ... backslash-paren occurrence to a dollar-wrapped group,
then every backslash-bracket occurrence to a double-dollar-wrapped group. -/
def normalize_math_delimiters (s : String) : String :=
  String.mk (normDelimPass '[' ']' ['$', '$']
    (normDelimPass '(' ')' ['$'] s.data))

/-! ## api/main.py: _strip_md (the de-markdowning used by the length checks) -/

/-- Try the bracket-pair tail of the image/link regexes at a position just
after the opening bracket: a run of non-bracket characters (nonempty when
`needText`), the closing bracket, an opening paren, a nonempty run of
non-paren characters, the closing paren.  Returns the remainder after the
match. -/
def matchBracketPair (needText : Bool) (cs : List Char) : Option (List Char) :=
  match findSub [']'] cs with
  | none => none
  | some k =>
    if needText && k == 0 then none
    else
      match cs.drop (k + 1) with
      | '(' :: url =>
        match findSub [')'] url with
        | none => none
        | some j => if j == 0 then none else some (url.drop (j + 1))
      | _ => none

theorem matchBracketPair_length {b : Bool} {cs rem : List Char}
    (h : matchBracketPair b cs = some rem) : rem.length ≤ cs.length := by
  unfold matchBracketPair at h
  split at h
  · cases h
  · split at h
    · cases h
    · split at h
      · rename_i k hk url hd
        split at h
        · cases h
        · split at h
          · cases h
          · rename_i j hj hj0
            rw [Option.some_inj] at h
            subst h
            have h1 : url.length + 1 ≤ cs.length := by
              have h2 : ('(' :: url).length ≤ cs.length := by
                rw [← hd]
                simpa using length_drop_le (k + 1) cs
              simpa using h2
            calc (url.drop (j + 1)).length ≤ url.length :=
                  length_drop_le (j + 1) url
              _ ≤ cs.length := by omega
      · cases h

/-- The image pass `!\[[^\]]*\]\([^)]+\) -> " "` (fueled like
`normDelimPassF`; the list length is always enough fuel). -/
def stripImagesPassF : Nat → List Char → List Char
  | 0, l => l
  | _ + 1, [] => []
  | fuel + 1, c :: rest =>
    if c = '!' ∧ rest.head? = some '[' then
      match matchBracketPair false (rest.drop 1) with
      | some rem => ' ' :: stripImagesPassF fuel rem
      | none => c :: stripImagesPassF fuel rest
    else c :: stripImagesPassF fuel rest

def stripImagesPass (l : List Char) : List Char :=
  stripImagesPassF l.length l

/-- The link pass `\[[^\]]+\]\([^)]+\) -> " "` (link text nonempty). -/
def stripLinksPassF : Nat → List Char → List Char
  | 0, l => l
  | _ + 1, [] => []
  | fuel + 1, c :: rest =>
    if c = '[' then
      match matchBracketPair true rest with
      | some rem => ' ' :: stripLinksPassF fuel rem
      | none => c :: stripLinksPassF fuel rest
    else c :: stripLinksPassF fuel rest

def stripLinksPass (l : List Char) : List Char :=
  stripLinksPassF l.length l

/-- The backtick character, produced by code so that the source text itself
stays free of raw backticks. -/
def tick : Char := Char.ofNat 96

/-- Length of the run of `c` at the head of the list. -/
def countRun (c : Char) : List Char → Nat
  | [] => 0
  | d :: ds => if d = c then countRun c ds + 1 else 0

/-- The code-span pass: one to three backticks (greedy), a non-greedy DOTALL
group, one to three backticks (greedy), replaced by a space.  The
deterministic reading of the backtracking regex: the opener takes at most
three backticks of the run at the match position; if the run is longer the
closer is taken from the same run (empty group); otherwise the group runs to
the earliest later backtick and the closer takes at most three of that run;
if no later backtick exists, a run of two or three backticks still matches
within itself (opener shortened by one, empty group, one-backtick closer) and
a single backtick does not match at all. -/
def stripCodePassF : Nat → List Char → List Char
  | 0, l => l
  | _ + 1, [] => []
  | fuel + 1, c :: rest =>
    if c = tick then
      let r := countRun tick rest + 1
      let o := min 3 r
      if r > o then
        ' ' :: stripCodePassF fuel ((c :: rest).drop (o + min 3 (r - o)))
      else
        match findSub [tick] ((c :: rest).drop r) with
        | some k =>
            ' ' :: stripCodePassF fuel (((c :: rest).drop r).drop
              (k + min 3 (countRun tick (((c :: rest).drop r).drop k))))
        | none =>
            if r ≥ 2 then ' ' :: stripCodePassF fuel ((c :: rest).drop r)
            else c :: stripCodePassF fuel rest
    else c :: stripCodePassF fuel rest

def stripCodePass (l : List Char) : List Char :=
  stripCodePassF l.length l

/-- The HTML-tag pass `<[^>]+> -> " "` (tag body nonempty). -/
def stripHtmlTagPassF : Nat → List Char → List Char
  | 0, l => l
  | _ + 1, [] => []
  | fuel + 1, c :: rest =>
    if c = '<' then
      match findSub ['>'] rest with
      | some j =>
          if j = 0 then c :: stripHtmlTagPassF fuel rest
          else ' ' :: stripHtmlTagPassF fuel (rest.drop (j + 1))
      | none => c :: stripHtmlTagPassF fuel rest
    else c :: stripHtmlTagPassF fuel rest

def stripHtmlTagPass (l : List Char) : List Char :=
  stripHtmlTagPassF l.length l

/-- The punctuation pass `[*_>#-] -> " "`. -/
def stripSpecialChar (c : Char) : Char :=
  if c = '*' ∨ c = '_' ∨ c = '>' ∨ c = '#' ∨ c = '-' then ' ' else c

/-- `_strip_md(s)`: the five substitution passes in source order, then
whitespace-run collapsing and stripping. -/
def stripMdCh (cs : List Char) : List Char :=
  let s1 := stripImagesPass cs
  let s2 := stripLinksPass s1
  let s3 := stripCodePass s2
  let s4 := stripHtmlTagPass s3
  let s5 := s4.map stripSpecialChar
  let s6 := collapseWSAux s5 false
  dropLeadingWS (dropLeadingWS s6.reverse).reverse

/-! ## api/main.py: _is_deep_enough (the completeness contract) -/

/-- `str.split("\n")` on characters (`"a\nb" -> ["a","b"]`, trailing newline
yields a final empty line, the empty string yields one empty line). -/
def splitLinesCh : List Char → List (List Char)
  | [] => [[]]
  | c :: cs =>
    if c = '\n' then [] :: splitLinesCh cs
    else
      match splitLinesCh cs with
      | [] => [[c]]
      | l :: ls => (c :: l) :: ls

/-- Python `lstrip("\n")`. -/
def dropNl : List Char → List Char :=
  List.dropWhile (fun c => c = '\n')

/-- Strip whitespace from both ends (Python `str.strip()`). -/
def stripWSCh (cs : List Char) : List Char :=
  dropLeadingWS (dropLeadingWS cs.reverse).reverse

/-- The heading regex `^##\s+(.+?)\n` at line granularity: two hashes, at
least one whitespace character, then a nonempty title (the greedy whitespace
run is dropped from the title start; the non-greedy group runs to the end of
the line). -/
def headingTitleCh (line : List Char) : Option (List Char) :=
  match line with
  | c1 :: c2 :: rest =>
    if c1 = '#' ∧ c2 = '#' then
      match rest with
      | [] => none
      | c :: _ =>
        if isPyWS c then
          let t := dropLeadingWS rest
          if t.isEmpty then none else some t
        else none
    else none
  | _ => none

/-- Lines of the current block content, up to (exclusive) the next heading
line; also returns the remaining lines from that heading on. -/
def takeContent : List (List Char) → List (List Char) × List (List Char)
  | [] => ([], [])
  | l :: ls =>
    match headingTitleCh l with
    | some _ => ([], l :: ls)
    | none =>
      let p := takeContent ls
      (l :: p.1, p.2)

theorem takeContent_snd_length (ls : List (List Char)) :
    (takeContent ls).2.length ≤ ls.length := by
  induction ls with
  | nil => simp [takeContent]
  | cons l ls ih =>
    simp only [takeContent]
    rcases headingTitleCh l with _ | t
    · simpa using Nat.le_succ_of_le ih
    · simp

/-- The block-splitting regex `(?ms)^##\s+(.+?)\n(.*?)(?=^##\s+|\Z)`: every
heading line opens a block whose content is the following lines up to the
next heading, joined by newlines (the capture's trailing newline before the
next heading is dropped here; the whitespace-collapsing consumers make that
invisible).  Text before the first heading belongs to no block. -/
def splitBlocksChF : Nat → List (List Char) → List (List Char × List Char)
  | 0, _ => []
  | _ + 1, [] => []
  | fuel + 1, l :: ls =>
    match headingTitleCh l with
    | some t =>
        (t, List.intercalate ['\n'] (takeContent ls).1) ::
          splitBlocksChF fuel (takeContent ls).2
    | none => splitBlocksChF fuel ls

def splitBlocksCh (lines : List (List Char)) : List (List Char × List Char) :=
  splitBlocksChF lines.length lines

/-- `\w` on the ASCII range the section titles use. -/
def isWordChar (c : Char) : Bool := c.isAlphanum || c = '_'

/-- `re.sub(r"[^\w\s&]", "", title).strip().lower()`. -/
def normTitleCh (t : List Char) : List Char :=
  (stripWSCh (t.filter (fun c => isWordChar c || isPyWS c || c = '&'))).map
    Char.toLower

/-- The `by_title` dict: blocks keyed by normalized title, a later duplicate
heading overwriting an earlier one. -/
def byTitleCh (probe : List Char) : List (List Char × List Char) :=
  (splitBlocksCh (splitLinesCh probe)).map (fun b => (normTitleCh b.1, b.2))

/-- Python dict lookup on `by_title` (last binding of a key wins). -/
def dictGetCh (entries : List (List Char × List Char)) (k : List Char) :
    Option (List Char) :=
  (entries.reverse.find? (fun e => e.1 = k)).map Prod.snd

/-- `first_line = probe.splitlines()[0] if probe.splitlines() else ""` and
the `TAGS:` strip `probe[len(first_line):].lstrip("\n")`. -/
def dropTagsCh (cs : List Char) : List Char :=
  let fl := (splitLinesCh cs).headD []
  if ("TAGS:".data).isPrefixOf fl then dropNl (cs.drop fl.length) else cs

/-- `required_sections` of `_generate_deep_md`. -/
def required_sections : List String :=
  ["AI Summary", "Abstract", "Method Details", "Summary", "Future Direction",
   "Pros and Cons"]

/-- `min_len` of `_generate_deep_md` (a dict over the six section names). -/
def min_len (sec : String) : Nat :=
  if sec = "AI Summary" then 100
  else if sec = "Abstract" then 180
  else if sec = "Method Details" then 420
  else if sec = "Summary" then 120
  else if sec = "Future Direction" then 100
  else if sec = "Pros and Cons" then 140
  else 0

/-- The per-section loop of `_is_deep_enough`: the first missing or
too-short required section produces the failure reason. -/
def checkSections (bt : List (List Char × List Char)) :
    List String → Option String
  | [] => none
  | sec :: rest =>
    match dictGetCh bt ((pyLower sec).data) with
    | none => some ("missing section: " ++ sec)
    | some content =>
      if (stripMdCh content).length < min_len sec then
        some ("section too short: " ++ sec ++ " (" ++
          toString (stripMdCh content).length ++ " chars)")
      else checkSections bt rest

/-- `_is_deep_enough(text)`: empty-after-strip fails outright; otherwise the
`TAGS:` first line is dropped, the six required sections must be present with
de-markdowned length at least their minimum, and the pros-and-cons block must
contain both sub-headings. -/
def is_deep_enough (text : String) : Bool × String :=
  if stripWSCh text.data = [] then (false, "empty output")
  else
    let bt := byTitleCh (dropTagsCh text.data)
    match checkSections bt required_sections with
    | some reason => (false, reason)
    | none =>
      let pc := (dictGetCh bt ("pros and cons".data)).getD []
      if !(containsSub ("### Pros".data) pc) ||
         !(containsSub ("### Cons".data) pc) then
        (false, "missing Pros/Cons subsections")
      else (true, "")

/-- The completeness contract as the specification words it: after dropping a
leading `TAGS:` line, every required section heading is present, each
section's de-markdowned text reaches its per-section minimum, and the
pros-and-cons section carries both sub-headings. -/
def completeness_contract (text : String) : Prop :=
  (∀ sec ∈ required_sections, ∃ content,
      dictGetCh (byTitleCh (dropTagsCh text.data)) ((pyLower sec).data) =
        some content ∧
      min_len sec ≤ (stripMdCh content).length)
  ∧ containsSub ("### Pros".data)
      ((dictGetCh (byTitleCh (dropTagsCh text.data))
        ("pros and cons".data)).getD []) = true
  ∧ containsSub ("### Cons".data)
      ((dictGetCh (byTitleCh (dropTagsCh text.data))
        ("pros and cons".data)).getD []) = true

/-! ## api/main.py: model fallback chain and body assembly (_generate_deep_md) -/

/-- `model_chain = list(dict.fromkeys([primary_model, fixed_fallback]))`:
the primary model followed by the fixed cheaper fallback, deduplicated while
preserving order. -/
def model_chain (primary fallbackModel : String) : List String :=
  if primary = fallbackModel then [primary] else [primary, fallbackModel]

/-- The `for m in model_chain` loop: each candidate is normalized and checked
against the completeness contract; the first passing candidate stops the
chain with an empty error; a failing candidate records the incomplete-output
error and the loop moves to the next model.  `complete m` is the text the
generation backend returns for model `m`; the returned triple is the body,
the error, and the models actually called, in order. -/
def runModelChain (complete : String → String) :
    List String → String → String × String × List String
  | [], err => ("", err, [])
  | m :: ms, err =>
    let cand := normalize_math_delimiters (complete m)
    if (is_deep_enough cand).1 then (cand, "", [m])
    else
      let rec_result := runModelChain complete ms
        ("incomplete AI output (" ++ m ++ "): " ++ (is_deep_enough cand).2)
      (rec_result.1, rec_result.2.1, m :: rec_result.2.2)

/-- The prior-analysis fields of the report dict that the fallback template
reads. -/
structure ReportFields where
  methods_detailed : String
  main_conclusion : String
  future_direction : String
  value_assessment : String
  ai_feed_summary : String
  deriving DecidableEq

/-- The deterministic fallback body of `_generate_deep_md` (the
figure-injection lines are absent because `figures_data` is the constant
empty list in the source). -/
def fallbackBody (ai_error : String) (report : ReportFields)
    (abstract : String) : String :=
  let methodText :=
    if report.methods_detailed ≠ "" then report.methods_detailed
    else "AI deep generation did not return sufficient methodological detail. Please regenerate this report after confirming model/key availability."
  let pros :=
    if report.value_assessment ≠ "" then "- " ++ report.value_assessment
    else "- Strengths are promising but not explicitly extracted in fallback mode."
  let cons :=
    if report.value_assessment ≠ "" then
      "- Requires deeper critical comparison with stronger baselines."
    else "- Weaknesses need manual review if AI value assessment is unavailable."
  let parts :=
    (if ai_error ≠ "" then
      ["> ⚠️ AI deep generation failed, fallback content is shown. Error: `"
        ++ ai_error ++ "`"] else [])
    ++ (if report.ai_feed_summary ≠ "" then
        ["## AI Summary\n\n" ++ report.ai_feed_summary] else [])
    ++ ["## Abstract\n\n" ++ abstract]
    ++ ["## Method Details\n\n" ++ methodText]
    ++ (if report.main_conclusion ≠ "" then
        ["## Summary\n\n" ++ report.main_conclusion] else [])
    ++ (if report.future_direction ≠ "" then
        ["## Future Direction\n\n" ++ report.future_direction] else [])
    ++ ["## Pros and Cons\n\n### Pros\n\n" ++ pros ++ "\n\n### Cons\n\n" ++ cons]
  if parts ≠ [] then String.intercalate "\n\n" parts
  else "## AI Summary\n\nN/A\n\n## Abstract\n\n" ++ abstract

/-- The `TAGS:` parse at lines 1404-1410: when the body is nonempty and its
first line starts with `TAGS:`, the comma-separated tags are collected and
the line is removed (the same computation as the `dropTagsCh` used by the
contract check). -/
def stripTagsBody (md : String) : String × List String :=
  if md ≠ "" then
    let fl := (splitLinesCh md.data).headD []
    if ("TAGS:".data).isPrefixOf fl then
      (String.mk (dropNl (md.data.drop fl.length)),
       ((String.mk (stripWSCh (fl.drop 5))).splitOn ",").map
           (fun t => String.mk (stripWSCh t.data))
         |>.filter (fun t => t ≠ ""))
    else (md, [])
  else ("", [])

/-- The `md_body` assembly of `_generate_deep_md`: run the model chain
(or record the missing-key error when no API key is configured), strip the
`TAGS:` first line, normalize the LaTeX delimiters, and fall back to the
deterministic template when the body is still empty.  `genOutcome` is
`some complete` when an API key is present, `none` otherwise; the repair and
figure-injection passes are identities because `figures_data` is the
constant empty list. -/
def deepMdBody (genOutcome : Option (String → String)) (chain : List String)
    (report : ReportFields) (abstract : String) : String :=
  let chainResult :=
    match genOutcome with
    | some complete =>
      let r := runModelChain complete chain ""
      (r.1, r.2.1)
    | none => ("", "Missing API key for selected provider")
  let md1 := (stripTagsBody chainResult.1).1
  let md2 := normalize_math_delimiters md1
  if md2 = "" then fallbackBody chainResult.2 report abstract else md2

/-! ### The contract characterization (C4) -/

theorem checkSections_eq_none_iff (bt : List (List Char × List Char)) :
    ∀ secs : List String,
      (checkSections bt secs = none ↔
        ∀ sec ∈ secs, ∃ c, dictGetCh bt ((pyLower sec).data) = some c ∧
          min_len sec ≤ (stripMdCh c).length) := by
  intro secs
  induction secs with
  | nil => simp [checkSections]
  | cons s rest ih =>
    simp only [checkSections]
    rcases hd : dictGetCh bt ((pyLower s).data) with _ | c
    · constructor
      · intro h; cases h
      · intro h
        rcases h s (by simp) with ⟨c, hc, _⟩
        rw [hd] at hc
        cases hc
    · dsimp only
      by_cases hlen : (stripMdCh c).length < min_len s
      · rw [if_pos hlen]
        constructor
        · intro h; cases h
        · intro h
          rcases h s (by simp) with ⟨c2, hc2, hlen2⟩
          rw [hd] at hc2
          cases hc2
          omega
      · rw [if_neg hlen]
        rw [ih]
        constructor
        · intro h sec hsec
          rcases List.mem_cons.mp hsec with rfl | hsec'
          · exact ⟨c, hd, by omega⟩
          · exact h sec hsec'
        · intro h sec hsec
          exact h sec (List.mem_cons_of_mem s hsec)

theorem dropLeadingWS_eq_nil_all {l : List Char}
    (h : dropLeadingWS l = []) : ∀ c ∈ l, isPyWS c = true := by
  induction l with
  | nil => intro c hc; cases hc
  | cons d ds ih =>
    intro c hc
    by_cases hw : isPyWS d
    · simp only [dropLeadingWS, hw, if_pos] at h
      rcases List.mem_cons.mp hc with rfl | hc'
      · exact hw
      · exact ih h c hc'
    · simp [dropLeadingWS, hw] at h

theorem mem_dropLeadingWS_or_ws {l : List Char} (c : Char) (hc : c ∈ l) :
    isPyWS c = true ∨ c ∈ dropLeadingWS l := by
  induction l with
  | nil => cases hc
  | cons d ds ih =>
    by_cases hw : isPyWS d
    · simp only [dropLeadingWS, hw, if_pos]
      rcases List.mem_cons.mp hc with rfl | hc'
      · exact Or.inl hw
      · exact ih hc'
    · have hrw : dropLeadingWS (d :: ds) = d :: ds := by
        simp [dropLeadingWS, hw]
      rw [hrw]
      exact Or.inr hc

theorem all_ws_of_stripWSCh_nil {cs : List Char} (h : stripWSCh cs = []) :
    ∀ c ∈ cs, isPyWS c = true := by
  intro c hc
  have hX := dropLeadingWS_eq_nil_all h
  rcases mem_dropLeadingWS_or_ws c (List.mem_reverse.mpr hc) with hw | hmem
  · exact hw
  · exact hX c (List.mem_reverse.mpr hmem)

theorem splitLinesCh_ne_nil (cs : List Char) : splitLinesCh cs ≠ [] := by
  induction cs with
  | nil => simp [splitLinesCh]
  | cons c cs ih =>
    by_cases hc : c = '\n'
    · simp [splitLinesCh, hc]
    · have hrw : splitLinesCh (c :: cs) =
          match splitLinesCh cs with
          | [] => [[c]]
          | l :: ls => (c :: l) :: ls := by
        simp [splitLinesCh, hc]
      rw [hrw]
      rcases hS : splitLinesCh cs with _ | ⟨l, ls⟩
      · exact absurd hS ih
      · simp

theorem mem_splitLinesCh {cs : List Char} {l : List Char} {c : Char}
    (hl : l ∈ splitLinesCh cs) (hc : c ∈ l) : c ∈ cs := by
  induction cs generalizing l with
  | nil =>
    simp only [splitLinesCh] at hl
    rcases List.mem_singleton.mp hl with rfl
    cases hc
  | cons d ds ih =>
    by_cases hd : d = '\n'
    · simp only [splitLinesCh, hd, if_pos] at hl
      rcases List.mem_cons.mp hl with rfl | hl'
      · cases hc
      · exact List.mem_cons_of_mem d (ih hl' hc)
    · simp only [splitLinesCh] at hl
      rw [if_neg hd] at hl
      rcases hS : splitLinesCh ds with _ | ⟨l0, ls⟩
      · exact absurd hS (splitLinesCh_ne_nil ds)
      · rw [hS] at hl
        have hl0 : l0 ∈ splitLinesCh ds := by
          rw [hS]
          exact List.mem_cons_self l0 ls
        rcases List.mem_cons.mp hl with rfl | hl'
        · rcases List.mem_cons.mp hc with rfl | hc'
          · simp
          · exact List.mem_cons_of_mem d (ih hl0 hc')
        · have hls : l ∈ splitLinesCh ds := by
            rw [hS]
            exact List.mem_cons_of_mem l0 hl'
          exact List.mem_cons_of_mem d (ih hls hc)

theorem headingTitleCh_none_of_ws {l : List Char}
    (h : ∀ c ∈ l, isPyWS c = true) : headingTitleCh l = none := by
  rcases l with _ | ⟨c1, _ | ⟨c2, rest⟩⟩
  · rfl
  · rfl
  · have h1 := h c1 (by simp)
    simp only [headingTitleCh]
    rw [if_neg]
    intro hcon
    rw [hcon.1] at h1
    simp [isPyWS] at h1

theorem splitBlocksChF_nil_of_no_heading :
    ∀ (fuel : Nat) (lines : List (List Char)),
      (∀ l ∈ lines, headingTitleCh l = none) →
      splitBlocksChF fuel lines = [] := by
  intro fuel
  induction fuel with
  | zero => intro lines _; rfl
  | succ n ih =>
    intro lines h
    rcases lines with _ | ⟨l, ls⟩
    · rfl
    · simp only [splitBlocksChF]
      rw [h l (by simp)]
      exact ih ls (fun l2 hl2 => h l2 (List.mem_cons_of_mem l hl2))

theorem mem_dropTagsCh {cs : List Char} {c : Char}
    (h : c ∈ dropTagsCh cs) : c ∈ cs := by
  simp only [dropTagsCh] at h
  by_cases hp : ("TAGS:".data).isPrefixOf ((splitLinesCh cs).headD [])
  · rw [if_pos hp] at h
    have h1 : c ∈ cs.drop ((splitLinesCh cs).headD []).length :=
      (List.dropWhile_sublist _).subset h
    exact List.drop_subset _ cs h1
  · rw [if_neg hp] at h
    exact h

theorem byTitleCh_nil_of_strip_empty {text : String}
    (h : stripWSCh text.data = []) :
    byTitleCh (dropTagsCh text.data) = [] := by
  have hws := all_ws_of_stripWSCh_nil h
  have hlines : ∀ l ∈ splitLinesCh (dropTagsCh text.data),
      headingTitleCh l = none := by
    intro l hl
    apply headingTitleCh_none_of_ws
    intro c hc
    exact hws c (mem_dropTagsCh (mem_splitLinesCh hl hc))
  simp only [byTitleCh, splitBlocksCh]
  rw [splitBlocksChF_nil_of_no_heading _ _ hlines]
  rfl

/-- **C4.**  A generated document satisfies the completeness contract iff,
after dropping a leading `TAGS:` first line when present, every one of the
six required section headings is present with its de-markdowned text at least
the per-section minimum length and the pros-and-cons section carries both
sub-headings; and a response that satisfies the contract stops the model
fallback chain, so the fallback model is never called after a passing first
generation. -/
theorem completeness_contract_spec :
    (∀ text : String,
      ((is_deep_enough text).1 = true ↔ completeness_contract text))
    ∧ (∀ (complete : String → String) (primary fallbackModel : String),
        (is_deep_enough (normalize_math_delimiters (complete primary))).1
            = true →
        runModelChain complete (model_chain primary fallbackModel) "" =
          (normalize_math_delimiters (complete primary), "", [primary])) := by
  constructor
  · intro text
    by_cases hstrip : stripWSCh text.data = []
    · simp only [is_deep_enough, if_pos hstrip]
      constructor
      · intro h
        cases h
      · intro hc
        rcases hc.1 "AI Summary" (by simp [required_sections]) with ⟨c, hcc, _⟩
        rw [byTitleCh_nil_of_strip_empty hstrip] at hcc
        simp [dictGetCh] at hcc
    · simp only [is_deep_enough, if_neg hstrip]
      rcases hcs : checkSections (byTitleCh (dropTagsCh text.data))
          required_sections with _ | r
      · dsimp only
        by_cases hA : containsSub ("### Pros".data)
            ((dictGetCh (byTitleCh (dropTagsCh text.data))
              ("pros and cons".data)).getD []) = true
        · by_cases hB : containsSub ("### Cons".data)
              ((dictGetCh (byTitleCh (dropTagsCh text.data))
                ("pros and cons".data)).getD []) = true
          · simp only [hA, hB, Bool.not_true, Bool.or_self, Bool.false_or]
            constructor
            · intro _
              exact ⟨(checkSections_eq_none_iff _ required_sections).mp hcs,
                hA, hB⟩
            · intro _
              rfl
          · constructor
            · intro h
              simp [hA, hB] at h
            · intro hc
              exact absurd hc.2.2 hB
        · constructor
          · intro h
            simp [hA] at h
          · intro hc
            exact absurd hc.2.1 hA
      · dsimp only
        constructor
        · intro h
          cases h
        · intro hc
          have := (checkSections_eq_none_iff _ required_sections).mpr hc.1
          rw [hcs] at this
          cases this
  · intro complete primary fallbackModel h
    by_cases hpf : primary = fallbackModel
    · simp only [model_chain, if_pos hpf, runModelChain]
      rw [if_pos h]
    · simp only [model_chain, if_neg hpf, runModelChain]
      rw [if_pos h]

/-- A concrete document that satisfies the completeness contract. -/
def sampleDeepDoc : String :=
  "TAGS: genomics, methods\n## AI Summary\n"
    ++ String.mk (List.replicate 120 'x')
    ++ "\n## Abstract\n" ++ String.mk (List.replicate 200 'x')
    ++ "\n## Method Details\n" ++ String.mk (List.replicate 430 'x')
    ++ "\n## Summary\n" ++ String.mk (List.replicate 130 'x')
    ++ "\n## Future Direction\n" ++ String.mk (List.replicate 110 'x')
    ++ "\n## Pros and Cons\n### Pros\n- good\n"
    ++ String.mk (List.replicate 80 'x')
    ++ "\n### Cons\n- bad\n" ++ String.mk (List.replicate 80 'x')

/-- Witness for `completeness_contract_spec`: a backend whose first answer is
`sampleDeepDoc` stops the chain at the primary model; the fallback model is
never called. -/
theorem completeness_contract_spec_witness :
    runModelChain (fun _ => sampleDeepDoc)
        (model_chain "gpt-5.1" "gpt-4.1-mini") "" =
      (normalize_math_delimiters sampleDeepDoc, "", ["gpt-5.1"]) :=
  completeness_contract_spec.2 (fun _ => sampleDeepDoc) "gpt-5.1"
    "gpt-4.1-mini" (by decide)

/-! ### Delimiter normalization across body sources (C6) -/

theorem normDelimPassF_ne_nil {openCh closeCh : Char} {wrap : List Char}
    (hw : wrap ≠ []) (fuel : Nat) (cs : List Char) (hcs : cs ≠ []) :
    normDelimPassF openCh closeCh wrap fuel cs ≠ [] := by
  cases fuel with
  | zero => simpa [normDelimPassF] using hcs
  | succ n =>
    rcases cs with _ | ⟨c, _ | ⟨d, rest⟩⟩
    · exact absurd rfl hcs
    · simp [normDelimPassF]
    · simp only [normDelimPassF]
      by_cases hco : c = '\\' ∧ d = openCh
      · rw [if_pos hco]
        rcases findSub ['\\', closeCh] (rest.drop 1) with _ | k
        · simp
        · simp only []
          intro hnil
          rcases wrap with _ | ⟨w, ws⟩
          · exact hw rfl
          · cases hnil
      · rw [if_neg hco]
        simp

theorem normalize_math_delimiters_ne_empty {s : String} (h : s ≠ "") :
    normalize_math_delimiters s ≠ "" := by
  have hdata : s.data ≠ [] := by
    intro hnil
    apply h
    cases s
    simp at hnil
    rw [hnil]
  have h1 : normDelimPassF '(' ')' ['$'] s.data.length s.data ≠ [] :=
    normDelimPassF_ne_nil (by simp) _ _ hdata
  have h2 := @normDelimPassF_ne_nil '[' ']' ['$', '$'] (by simp)
    (normDelimPassF '(' ')' ['$'] s.data.length s.data).length
    (normDelimPassF '(' ')' ['$'] s.data.length s.data) h1
  simp only [normalize_math_delimiters, normDelimPass]
  intro hcon
  apply h2
  have := congrArg String.data hcon
  simpa using this

theorem stripTagsBody_fst (md : String) :
    (stripTagsBody md).1.data = dropTagsCh md.data := by
  by_cases hmd : md = ""
  · subst hmd
    rfl
  · simp only [stripTagsBody, if_pos hmd, dropTagsCh]
    by_cases hp : ("TAGS:".data).isPrefixOf ((splitLinesCh md.data).headD [])
    · rw [if_pos hp, if_pos hp]
    · rw [if_neg hp, if_neg hp]

theorem dropTagsCh_ne_nil_of_deep {cand : String}
    (h : (is_deep_enough cand).1 = true) : dropTagsCh cand.data ≠ [] := by
  intro hnil
  by_cases hstrip : stripWSCh cand.data = []
  · simp [is_deep_enough, hstrip] at h
  · have hbt : byTitleCh (dropTagsCh cand.data) = [] := by
      rw [hnil]
      rfl
    simp only [is_deep_enough, if_neg hstrip, hbt] at h
    rcases hcs : checkSections [] required_sections with _ | r
    · rw [(checkSections_eq_none_iff [] required_sections)] at hcs
      rcases hcs "AI Summary" (by simp [required_sections]) with ⟨c, hc, _⟩
      simp [dictGetCh] at hc
    · rw [hcs] at h
      simp at h

/-- **C6, counterexample.**  When generation is unavailable and the fallback
template is used, the body is NOT delimiter-normalized: a backslash-paren
occurrence inside the prior `methods_detailed` field survives into the final
body, so normalizing the body again changes it. -/
theorem normalize_fallback_counterexample :
    normalize_math_delimiters
        (deepMdBody none ["gpt-5.1"]
          ⟨"\\(x\\)", "", "", "", ""⟩ "A") ≠
      deepMdBody none ["gpt-5.1"] ⟨"\\(x\\)", "", "", "", ""⟩ "A" := by
  decide

/-- **C6, amended.**  LaTeX delimiter normalization is applied to
model-generated bodies — each candidate is normalized before the contract
check and the accepted body is normalized again after the `TAGS:` strip — but
the deterministic fallback template body is returned without delimiter
normalization. -/
theorem normalize_delimiters_spec :
    (∀ (complete : String → String) (primary fallbackModel : String)
       (report : ReportFields) (abstract : String),
        (is_deep_enough (normalize_math_delimiters (complete primary))).1
            = true →
        deepMdBody (some complete) (model_chain primary fallbackModel)
            report abstract =
          normalize_math_delimiters
            ((stripTagsBody
              (normalize_math_delimiters (complete primary))).1))
    ∧ (∀ (chain : List String) (report : ReportFields) (abstract : String),
        deepMdBody none chain report abstract =
          fallbackBody "Missing API key for selected provider" report
            abstract) := by
  constructor
  · intro complete primary fallbackModel report abstract h
    have hchain := completeness_contract_spec.2 complete primary
      fallbackModel h
    simp only [deepMdBody, hchain]
    have hne : normalize_math_delimiters
        ((stripTagsBody
          (normalize_math_delimiters (complete primary))).1) ≠ "" := by
      apply normalize_math_delimiters_ne_empty
      intro hempty
      have hdata := congrArg String.data hempty
      rw [stripTagsBody_fst] at hdata
      exact dropTagsCh_ne_nil_of_deep h (by simpa using hdata)
    rw [if_neg hne]
  · intro chain report abstract
    simp only [deepMdBody]
    have h0 : (stripTagsBody "").1 = "" := rfl
    rw [h0]
    rfl

/-- Witness for `normalize_delimiters_spec`: with the passing sample
document, the final body is the normalized tag-stripped candidate. -/
theorem normalize_delimiters_spec_witness :
    deepMdBody (some (fun _ => sampleDeepDoc))
        (model_chain "gpt-5.1" "gpt-4.1-mini")
        ⟨"", "", "", "", ""⟩ "A" =
      normalize_math_delimiters
        ((stripTagsBody (normalize_math_delimiters sampleDeepDoc)).1) :=
  normalize_delimiters_spec.1 (fun _ => sampleDeepDoc) "gpt-5.1"
    "gpt-4.1-mini" ⟨"", "", "", "", ""⟩ "A" (by decide)

/-! ## api/main.py: PDF resolver (_download_pdf_copy, _try_download_pdf_for_report) -/

/-- The observable outcome of `requests.get(url, ...)`: either a raised
exception with its message (network/SSL failures), or a response with status
code, body bytes and content-type header. -/
inductive FetchResult
  | exc (msg : String)
  | resp (status : Nat) (content : List Nat) (contentType : String)

/-- The four bytes of the `%PDF` signature. -/
def PDF_SIG : List Nat := [37, 80, 68, 70]

/-- `_download_pdf_copy(pdf_url, dest_file)` with the HTTP effect passed in.
Returns the `(ok, reason)` pair of the source together with the bytes written
to the destination (`none` when nothing is written): an empty URL, a raised
request, an HTTP status of 400 or more, a payload under 1024 bytes, or a
missing `%PDF` signature in the first 2048 bytes each fail with their
diagnostic reason; otherwise any preamble before the signature is trimmed
and the bytes are written. -/
def download_pdf_copy (fetch : String → FetchResult) (pdf_url : String) :
    (Bool × String) × Option (List Nat) :=
  if pdf_url = "" then ((false, "empty url"), none)
  else
    match fetch pdf_url with
    | FetchResult.exc msg => ((false, msg), none)
    | FetchResult.resp status data ctype =>
      if 400 ≤ status then ((false, "http " ++ toString status), none)
      else if data.length < 1024 then ((false, "payload too small"), none)
      else
        match findSub PDF_SIG (data.take 2048) with
        | none =>
            ((false, "not a pdf payload (content-type=" ++
              (if pyLower ctype = "" then "unknown" else pyLower ctype) ++
              ")"), none)
        | some pos => ((true, ""), some (data.drop pos))

/-- The candidate de-duplication `if u and u not in seen` preserving order. -/
def dedupUrlsAux : List String → List String → List String
  | [], _ => []
  | u :: us, seen =>
    if u ≠ "" ∧ ¬ seen.contains u then u :: dedupUrlsAux us (u :: seen)
    else dedupUrlsAux us seen

def dedupUrls (candidates : List String) : List String :=
  dedupUrlsAux candidates []

/-- The reply of `_try_download_pdf_for_report`, with the list of URLs
actually fetched made explicit (to state the cached short-circuit). -/
structure DlOutcome where
  ok : Bool
  local_url : String
  detail : String
  fetched : List String
  written : Option (List Nat)
  deriving DecidableEq

/-- The candidate loop: try each URL in order, remember the last failure
reason as `url -> reason`, stop at the first success. -/
def tryLoop (fetch : String → FetchResult) (localUrl : String) :
    List String → String → List String → DlOutcome
  | [], last, fetched => ⟨false, "", last, fetched, none⟩
  | u :: us, last, fetched =>
    let r := download_pdf_copy fetch u
    if r.1.1 then ⟨true, localUrl, u, fetched ++ [u], r.2⟩
    else tryLoop fetch localUrl us (u ++ " -> " ++ r.1.2) (fetched ++ [u])

/-- `_try_download_pdf_for_report(card, day_dir, slug)`.  The candidate
discovery (`_candidate_pdf_urls` plus landing-page scraping) supplies
`candidates`; `destExists` is `local_file.exists()`. -/
def try_download_pdf_for_report (fetch : String → FetchResult)
    (candidates : List String) (destExists : Bool)
    (dayName slug : String) : DlOutcome :=
  let uniq := dedupUrls candidates
  let localUrl := "/api/reports/" ++ dayName ++ "/assets/" ++ slug ++ ".pdf"
  if uniq.isEmpty then ⟨false, "", "no candidate pdf url", [], none⟩
  else if destExists then ⟨true, localUrl, "already cached", [], none⟩
  else tryLoop fetch localUrl uniq "unknown" []

theorem findSubAux_prefix {α : Type} [DecidableEq α] {needle : List α} :
    ∀ (hay : List α) (k i : Nat), findSubAux needle hay k = some i →
      k ≤ i ∧ needle.isPrefixOf (hay.drop (i - k)) = true := by
  intro hay
  induction hay with
  | nil =>
    intro k i h
    simp only [findSubAux] at h
    by_cases hn : needle.isEmpty
    · rw [if_pos hn] at h
      cases h
      refine ⟨le_refl _, ?_⟩
      rcases needle with _ | ⟨n, ns⟩
      · simp [List.isPrefixOf]
      · simp at hn
    · rw [if_neg hn] at h
      cases h
  | cons b bs ih =>
    intro k i h
    simp only [findSubAux] at h
    by_cases hp : needle.isPrefixOf (b :: bs) = true
    · rw [if_pos hp] at h
      cases h
      simpa using hp
    · rw [if_neg hp] at h
      rcases ih (k + 1) i h with ⟨hk, hpre⟩
      refine ⟨by omega, ?_⟩
      have : i - k = (i - (k + 1)) + 1 := by omega
      rw [this]
      simpa using hpre

theorem findSub_prefix {α : Type} [DecidableEq α] {needle hay : List α}
    {i : Nat} (h : findSub needle hay = some i) :
    needle <+: hay.drop i := by
  rcases findSubAux_prefix hay 0 i h with ⟨_, hp⟩
  rw [List.isPrefixOf_iff_prefix] at hp
  simpa using hp

theorem tryLoop_all_fail (fetch : String → FetchResult) (localUrl : String) :
    ∀ (l : List String) (last : String) (fetched : List String),
      (∀ u ∈ l, (download_pdf_copy fetch u).1.1 = false) →
      tryLoop fetch localUrl l last fetched =
        ⟨false, "",
         l.foldl (fun acc u => u ++ " -> " ++ (download_pdf_copy fetch u).1.2)
           last,
         fetched ++ l, none⟩ := by
  intro l
  induction l with
  | nil => intro last fetched _; simp [tryLoop]
  | cons u us ih =>
    intro last fetched hfail
    have hu := hfail u (by simp)
    simp only [tryLoop, hu]
    rw [if_neg (by simp)]
    rw [ih _ _ (fun v hv => hfail v (List.mem_cons_of_mem u hv))]
    simp

theorem foldl_lastReason (fetch : String → FetchResult) :
    ∀ (us : List String) (ulast : String) (last : String),
      (us ++ [ulast]).foldl
          (fun acc u => u ++ " -> " ++ (download_pdf_copy fetch u).1.2) last =
        ulast ++ " -> " ++ (download_pdf_copy fetch ulast).1.2 := by
  intro us
  induction us with
  | nil => intro ulast last; simp
  | cons v vs ih => intro ulast last; simp [ih]

theorem tryLoop_first_success (fetch : String → FetchResult)
    (localUrl : String) :
    ∀ (l : List String) (u : String) (last : String) (fetched : List String),
      l.find? (fun v => (download_pdf_copy fetch v).1.1) = some u →
      tryLoop fetch localUrl l last fetched =
        ⟨true, localUrl, u,
         fetched ++ (l.takeWhile
            (fun v => !(download_pdf_copy fetch v).1.1)) ++ [u],
         (download_pdf_copy fetch u).2⟩ := by
  intro l
  induction l with
  | nil => intro u last fetched h; cases h
  | cons v vs ih =>
    intro u last fetched h
    by_cases hv : (download_pdf_copy fetch v).1.1 = true
    · rw [List.find?_cons_of_pos _ (by simpa using hv)] at h
      cases h
      simp [tryLoop, hv, List.takeWhile_cons, List.append_assoc]
    · rw [List.find?_cons_of_neg _ (by simpa using hv)] at h
      have hv' : (download_pdf_copy fetch v).1.1 = false := by
        simpa using hv
      simp only [tryLoop, hv']
      rw [if_neg (by simp)]
      rw [ih u _ _ h]
      simp [List.takeWhile_cons, hv', List.append_assoc]

/-- **C7.**  `_try_download_pdf_for_report` tries the de-duplicated candidate
URLs in order and succeeds at the first working one; a candidate succeeds
only if the response is not an HTTP error, the payload is at least the
1024-byte minimum, and the `%PDF` signature occurs in the first 2048 bytes,
in which case the bytes written start at the signature (preamble trimmed);
an existing destination short-circuits as cached with no fetch at all; and
exhaustion returns a failure carrying the last attempt's reason (an empty
candidate list fails with `no candidate pdf url`). -/
theorem try_download_pdf_spec (fetch : String → FetchResult)
    (candidates : List String) (dayName slug : String) :
    (dedupUrls candidates ≠ [] →
      try_download_pdf_for_report fetch candidates true dayName slug =
        ⟨true, "/api/reports/" ++ dayName ++ "/assets/" ++ slug ++ ".pdf",
         "already cached", [], none⟩)
    ∧ (∀ u, (download_pdf_copy fetch u).1.1 = true →
        ∃ status data ctype, fetch u = FetchResult.resp status data ctype ∧
          status < 400 ∧ 1024 ≤ data.length ∧
          ∃ pos, findSub PDF_SIG (data.take 2048) = some pos ∧
            (download_pdf_copy fetch u).2 = some (data.drop pos) ∧
            PDF_SIG <+: data.drop pos)
    ∧ (∀ u, (dedupUrls candidates).find?
          (fun v => (download_pdf_copy fetch v).1.1) = some u →
        try_download_pdf_for_report fetch candidates false dayName slug =
          ⟨true, "/api/reports/" ++ dayName ++ "/assets/" ++ slug ++ ".pdf",
           u,
           ((dedupUrls candidates).takeWhile
             (fun v => !(download_pdf_copy fetch v).1.1)) ++ [u],
           (download_pdf_copy fetch u).2⟩)
    ∧ (∀ us ulast, dedupUrls candidates = us ++ [ulast] →
        (∀ u ∈ dedupUrls candidates,
          (download_pdf_copy fetch u).1.1 = false) →
        try_download_pdf_for_report fetch candidates false dayName slug =
          ⟨false, "",
           ulast ++ " -> " ++ (download_pdf_copy fetch ulast).1.2,
           dedupUrls candidates, none⟩)
    ∧ (dedupUrls candidates = [] → ∀ destExists,
        try_download_pdf_for_report fetch candidates destExists dayName slug =
          ⟨false, "", "no candidate pdf url", [], none⟩) := by
  refine ⟨?_, ?_, ?_, ?_, ?_⟩
  · intro hne
    simp only [try_download_pdf_for_report]
    rw [if_neg (by simpa using hne)]
    simp
  · intro u hok
    by_cases hu : u = ""
    · simp [download_pdf_copy, hu] at hok
    · rcases hf : fetch u with msg | ⟨status, data, ctype⟩
      · simp [download_pdf_copy, hu, hf] at hok
      · by_cases hst : 400 ≤ status
        · simp [download_pdf_copy, hu, hf, hst] at hok
        · by_cases hlen : data.length < 1024
          · simp [download_pdf_copy, hu, hf, hst, hlen] at hok
          · rcases hfind : findSub PDF_SIG (data.take 2048) with _ | pos
            · simp [download_pdf_copy, hu, hf, hst, hlen, hfind] at hok
            · refine ⟨status, data, ctype, rfl, by omega, by omega, pos,
                hfind, ?_, ?_⟩
              · simp [download_pdf_copy, hu, hf, hst, hlen, hfind]
              · have hpre := findSub_prefix hfind
                have h1 : (data.take 2048).drop pos <+: data.drop pos := by
                  rw [List.drop_take]
                  exact List.take_prefix _ _
                exact hpre.trans h1
  · intro u hfind
    have hne : ¬ (dedupUrls candidates).isEmpty = true := by
      intro hcon
      rw [List.isEmpty_iff] at hcon
      rw [hcon] at hfind
      cases hfind
    simp only [try_download_pdf_for_report]
    rw [if_neg hne, if_neg (by simp)]
    simpa using tryLoop_first_success fetch _ (dedupUrls candidates) u
      "unknown" [] hfind
  · intro us ulast hsplit hfail
    have hne : ¬ (dedupUrls candidates).isEmpty = true := by
      rw [List.isEmpty_iff, hsplit]
      simp
    simp only [try_download_pdf_for_report]
    rw [if_neg hne, if_neg (by simp)]
    rw [tryLoop_all_fail fetch _ (dedupUrls candidates) "unknown" [] hfail]
    rw [hsplit, foldl_lastReason]
    simp [hsplit]
  · intro hnil destExists
    simp only [try_download_pdf_for_report]
    rw [if_pos (by simpa [List.isEmpty_iff] using hnil)]

/-- A concrete fetch environment for the witness: one 404 candidate, one
valid PDF candidate with a 1024-byte payload. -/
def sampleFetch (u : String) : FetchResult :=
  if u = "http://a/x.pdf" then FetchResult.resp 404 [] ""
  else if u = "http://b/x.pdf" then
    FetchResult.resp 200 (PDF_SIG ++ List.replicate 1020 0) "application/pdf"
  else FetchResult.exc "boom"

/-- Witness for `try_download_pdf_spec`: the loop skips the 404 candidate and
succeeds at the second URL. -/
theorem try_download_pdf_spec_witness :
    try_download_pdf_for_report sampleFetch
        ["http://a/x.pdf", "", "http://a/x.pdf", "http://b/x.pdf"] false
        "2025-06-01" "paper" =
      ⟨true, "/api/reports/2025-06-01/assets/paper.pdf", "http://b/x.pdf",
       ["http://a/x.pdf", "http://b/x.pdf"],
       (download_pdf_copy sampleFetch "http://b/x.pdf").2⟩ := by
  have h := (try_download_pdf_spec sampleFetch
    ["http://a/x.pdf", "", "http://a/x.pdf", "http://b/x.pdf"]
    "2025-06-01" "paper").2.2.1 "http://b/x.pdf" (by decide)
  rw [h]
  decide

/-! ## api/main.py: cycle trigger (run_pipeline) -/

/-- Job status values of `_pipeline_state["status"]`. -/
inductive PipeStatus
  | idle
  | running
  | done
  | error
  deriving DecidableEq

/-- The immediate JSON reply of `POST /api/pipeline/run`. -/
structure TriggerResult where
  started : Bool
  reason : Option String
  date : Option String
  deriving DecidableEq

/-- The accept/reject prefix of `run_pipeline` with its effects explicit:
`status` is the current job status, `betaMode` is `_is_beta_mode()`,
`hasRunToday` is whether `get_run(archive_db, today)` returned a row
(`get_run` modeled as succeeding; a raised archive error makes the code skip
the check), and `today` is `_today_in_tz` of the configured time zone.  The
body after acceptance (state reset and background thread) does not affect the
reply. -/
def run_pipeline_accept (status : PipeStatus)
    (betaMode force hasRunToday : Bool) (today : String) : TriggerResult :=
  if status = PipeStatus.running then
    { started := false, reason := some "already_running", date := none }
  else if (betaMode || !force) && hasRunToday then
    { started := false,
      reason := some (if betaMode then "beta_daily_limit" else "already_run_today"),
      date := some today }
  else { started := true, reason := none, date := none }

/-- **C1, counterexample.**  The claim "triggering with force=true always
proceeds past the idempotency check" is false as stated: in beta mode
(`app_mode = "beta"`, part of the configuration), a trigger with
`force = true` on a day that already has a stored run is rejected, with
reason `beta_daily_limit`. -/
theorem run_pipeline_force_beta_counterexample :
    (run_pipeline_accept PipeStatus.idle true true true "2025-06-01").started
        = false
    ∧ (run_pipeline_accept PipeStatus.idle true true true "2025-06-01").reason
        = some "beta_daily_limit" := by
  constructor <;> rfl

/-- **C1, amended.**  In non-beta mode the claim holds: while a cycle is
running every trigger is rejected with `already_running`; otherwise a
`force = false` trigger on a day whose run is already archived is rejected
with `already_run_today`; a `force = true` trigger always proceeds; and a
rejection carries no reason other than these two. -/
theorem run_pipeline_accept_spec (status : PipeStatus)
    (force hasRunToday : Bool) (today : String) :
    (status = PipeStatus.running →
      run_pipeline_accept status false force hasRunToday today =
        { started := false, reason := some "already_running", date := none })
    ∧ (status ≠ PipeStatus.running → hasRunToday = true → force = false →
        run_pipeline_accept status false force hasRunToday today =
          { started := false, reason := some "already_run_today",
            date := some today })
    ∧ (status ≠ PipeStatus.running → force = true →
        (run_pipeline_accept status false force hasRunToday today).started
          = true)
    ∧ ((run_pipeline_accept status false force hasRunToday today).started
          = false →
        (run_pipeline_accept status false force hasRunToday today).reason
            = some "already_running" ∨
          (run_pipeline_accept status false force hasRunToday today).reason
            = some "already_run_today") := by
  refine ⟨?_, ?_, ?_, ?_⟩
  · intro h
    simp [run_pipeline_accept, h]
  · intro h hrun hforce
    subst hrun hforce
    simp [run_pipeline_accept, h]
  · intro h hforce
    subst hforce
    simp [run_pipeline_accept, h]
  · intro hrej
    by_cases h : status = PipeStatus.running
    · left
      simp [run_pipeline_accept, h]
    · cases force with
      | false =>
        cases hasRunToday with
        | false => exact absurd hrej (by simp [run_pipeline_accept, h])
        | true =>
          right
          simp [run_pipeline_accept, h]
      | true => exact absurd hrej (by simp [run_pipeline_accept, h])

/-- Witness for `run_pipeline_accept_spec`: non-beta, idle, no force, with a
run already archived for today. -/
theorem run_pipeline_accept_spec_witness :
    run_pipeline_accept PipeStatus.idle false false true "2025-06-01" =
      { started := false, reason := some "already_run_today",
        date := some "2025-06-01" } :=
  (run_pipeline_accept_spec PipeStatus.idle false true "2025-06-01").2.1
    (by intro h; cases h) rfl rfl

end ResearchPipeline
